import Mathlib

/-!
# nomad-filewatcher-driver: a shallow embedding

The development follows `pkg/watcher/watcher.go` (the watch-filter-react
engine) and `pkg/driver/{config,driver}.go` (task configuration and the
task lifecycle callbacks).

Conventions of the embedding:

* Go strings are Lean `String`s.
* `filepath.Match` is library code working on bytes; the watcher is embedded
  for an arbitrary matcher (`GlobMatch`), and `filepath.Match` below is a
  character-level rendering of Go's loops that instantiates it.
* A Go `(T, error)` result is an `Except`, a Go `error` result is an
  `Option` of the error (`none` is `nil`).
* A Go `map[string]string` is an `AList` (an association list without
  duplicate keys); a `nil` map is `none`.
* Mutable receivers are passed and returned explicitly.
* `fsnotify.Op` is a bit mask, embedded as a `Nat`.
-/

namespace FileWatcherDriver

/-! ## Go library routines used by the watcher (Unix build) -/

namespace filepath

/-- Go `os.IsPathSeparator` on Unix: the separator is the slash. -/
def isPathSeparator (c : Char) : Bool := c == '/'

/-- Go `filepath.Base`: the last element of the path. Trailing slashes are
removed first; the empty path gives ".", a path of slashes only gives "/". -/
def Base (path : String) : String :=
  if path = "" then "."
  else
    -- strip trailing slashes (the list is reversed: the end of the path comes first)
    let stripped := path.toList.reverse.dropWhile isPathSeparator
    -- find the last element: everything after the last remaining separator
    let last := (stripped.takeWhile (fun c => !isPathSeparator c)).reverse
    -- if empty now, it had only slashes
    if last = [] then "/" else String.mk last

/-- Errors of `filepath.Match`. `ErrBadPattern` is Go's only one;
`outOfFuel` is the value the fuelled loops below return when their
iteration budget is used up. Every loop iteration consumes a character of
the pattern and the budget is the length of the pattern, so this value is
never returned (`Match_ne_outOfFuel`). -/
inductive MatchErr
  | ErrBadPattern
  | outOfFuel
  deriving DecidableEq, Repr

/-- The scanning loop of Go `scanChunk`: splits the pattern before the first
star that is not inside a character class; a backslash skips the next
character when there is one. -/
def scanSplit : Bool → List Char → List Char × List Char
  | _, [] => ([], [])
  | inrange, c :: rest =>
    if c = '\\' then
      match rest with
      | [] => ([c], [])
      | d :: rest2 =>
        let r := scanSplit inrange rest2
        (c :: d :: r.1, r.2)
    else if c = '[' then
      let r := scanSplit true rest
      (c :: r.1, r.2)
    else if c = ']' then
      let r := scanSplit false rest
      (c :: r.1, r.2)
    else if c = '*' then
      if !inrange then ([], c :: rest)
      else
        let r := scanSplit inrange rest
        (c :: r.1, r.2)
    else
      let r := scanSplit inrange rest
      (c :: r.1, r.2)

/-- Go `scanChunk`: the next segment of the pattern, a non-star string
possibly preceded by stars. Returns `(star, chunk, rest)`. -/
def scanChunk (pattern : List Char) : Bool × List Char × List Char :=
  let stripped := pattern.dropWhile (fun c => c == '*')
  let star := pattern.head? == some '*'
  let r := scanSplit false stripped
  (star, r.1, r.2)

/-- Go `getEsc`: a possibly escaped character of a character class, with the
rest of the chunk; the rest must not be empty. -/
def getEsc (chunk : List Char) : Except MatchErr (Nat × List Char) :=
  match chunk with
  | [] => .error .ErrBadPattern
  | c :: rest =>
    if c = '-' ∨ c = ']' then .error .ErrBadPattern
    else
      let chunk1 := if c = '\\' then rest else chunk
      match chunk1 with
      | [] => .error .ErrBadPattern
      | r :: nchunk =>
        if nchunk = [] then .error .ErrBadPattern
        else .ok (r.toNat, nchunk)

/-- The range-parsing loop of a character class in Go `matchChunk`
(`for { ... nrange++ }`), entered after the bracket and an optional caret.
`r` is the rune of the name under test, `matched` the flag `match`.
Returns the final flag and the chunk after the closing bracket. -/
def classLoop : Nat → List Char → Nat → Bool → Nat → Except MatchErr (Bool × List Char)
  | 0, _, _, _, _ => .error .outOfFuel
  | fuel + 1, chunk, r, matched, nrange =>
    if chunk.head? = some ']' ∧ 0 < nrange then .ok (matched, chunk.tail)
    else
      match getEsc chunk with
      | .error e => .error e
      | .ok (lo, chunk1) =>
        let hiRes : Except MatchErr (Nat × List Char) :=
          if chunk1.head? = some '-' then getEsc chunk1.tail else .ok (lo, chunk1)
        match hiRes with
        | .error e => .error e
        | .ok (hi, chunk2) =>
          classLoop fuel chunk2 r (matched || (decide (lo ≤ r) && decide (r ≤ hi))) (nrange + 1)

/-- The loop of Go `matchChunk` (`for len(chunk) > 0`), with the flag
`failed`: after the match has failed the loop goes on checking that the
chunk is well formed but no longer reads `s`. The result is `some rest`
when the chunk matches the beginning of `s` (`ok = true`), `none` otherwise. -/
def matchChunkLoop : Nat → List Char → List Char → Bool → Except MatchErr (Option (List Char))
  | _, [], s, failed => if failed then .ok none else .ok (some s)
  | 0, _ :: _, _, _ => .error .outOfFuel
  | fuel + 1, c :: chunkTail, s, failed0 =>
    let failed := failed0 || s.isEmpty
    if c = '[' then
      -- character class
      let r : Nat := if failed then 0 else (s.head?.map Char.toNat).getD 0
      let s1 := if failed then s else s.tail
      -- possibly negated
      let negated := chunkTail.head? == some '^'
      let chunk2 := if negated then chunkTail.tail else chunkTail
      -- parse all ranges
      match classLoop (fuel + 1) chunk2 r false 0 with
      | .error e => .error e
      | .ok (matched, chunk3) =>
        matchChunkLoop fuel chunk3 s1 (failed || (matched == negated))
    else if c = '?' then
      let failed1 := failed || (s.head? == some '/')
      let s1 := if failed then s else s.tail
      matchChunkLoop fuel chunkTail s1 failed1
    else
      -- a backslash escapes the next character, which must exist
      let chunk1 := if c = '\\' then chunkTail else c :: chunkTail
      match chunk1 with
      | [] => .error .ErrBadPattern
      | lit :: chunk2 =>
        let failed1 := failed || (s.head? != some lit)
        let s1 := if failed then s else s.tail
        matchChunkLoop fuel chunk2 s1 failed1

/-- Go `matchChunk`: whether the chunk matches the beginning of `s`; if so
the remainder of `s`. -/
def matchChunk (chunk s : List Char) : Except MatchErr (Option (List Char)) :=
  matchChunkLoop chunk.length chunk s false

/-- The inner loop of Go `Match` after a star
(`for i := 0; i < len(name) && name[i] != Separator; i++`): tries the chunk
after skipping `i+1` characters of the name. `last` says that the pattern is
exhausted (`len(pattern) == 0`). Returns `some t` when a position matched
(`continue Pattern` with `name = t`), `none` when the loop ends. -/
def starLoop (chunk : List Char) (last : Bool) : List Char → Except MatchErr (Option (List Char))
  | [] => .ok none
  | c :: nameTail =>
    if c = '/' then .ok none
    else
      match matchChunk chunk nameTail with
      | .ok (some t) =>
        -- if we are the last chunk, make sure we exhausted the name
        if last ∧ t ≠ [] then starLoop chunk last nameTail
        else .ok (some t)
      | .ok none => starLoop chunk last nameTail
      | .error e => .error e

/-- The loop of Go `Match`, labelled `Pattern` (`for len(pattern) > 0`). -/
def matchLoop : Nat → List Char → List Char → Except MatchErr Bool
  | _, [], name => .ok name.isEmpty
  | 0, _ :: _, _ => .error .outOfFuel
  | fuel + 1, p :: ps, name =>
    let sc := scanChunk (p :: ps)
    let star := sc.1
    let chunk := sc.2.1
    let pattern := sc.2.2
    if star ∧ chunk = [] then
      -- trailing star matches the rest of the name unless it has a slash
      .ok (!name.contains '/')
    else
      -- look for a match at the current position
      match matchChunk chunk name with
      | .ok (some t) =>
        if t = [] ∨ pattern ≠ [] then matchLoop fuel pattern t
        else if star then
          match starLoop chunk (decide (pattern = [])) name with
          | .error e => .error e
          | .ok (some t2) => matchLoop fuel pattern t2
          | .ok none => .ok false
        else .ok false
      | .error e => .error e
      | .ok none =>
        if star then
          match starLoop chunk (decide (pattern = [])) name with
          | .error e => .error e
          | .ok (some t2) => matchLoop fuel pattern t2
          | .ok none => .ok false
        else .ok false

/-- Go `filepath.Match(pattern, name)`: shell-glob matching of the whole
name; `ErrBadPattern` for a malformed pattern. Go's loops advance by bytes
and decode runes; this rendering advances by characters, which is the same
thing on strings of one-byte characters. On a name with multi-byte
characters Go's loop after a star also tries the offsets inside a
character, which this rendering does not: Go matches the pattern `*??`
against the one-character name `€`, this rendering does not. The theorems
about the watcher hold for every matcher and do not rely on this one. -/
def Match (pattern name : String) : Except MatchErr Bool :=
  matchLoop pattern.length pattern.toList name.toList

end filepath

/-- The result pair `(matched bool, err error)` of a glob matcher. -/
abbrev GlobMatch := String → String → Bool × Option filepath.MatchErr

/-- The matcher `filepath.Match` as a `GlobMatch`: every error return of Go's
`Match` is `return false, err`. -/
def goMatch : GlobMatch := fun pattern name =>
  match filepath.Match pattern name with
  | .ok b => (b, none)
  | .error e => (false, some e)

/-! ## fsnotify: events and operations -/

namespace fsnotify

/-- The bits of `fsnotify.Op` (`Create Op = 1 << iota`, then `Write`,
`Remove`, `Rename`, `Chmod`). -/
def Create : Nat := 1
/-- Bit of `fsnotify.Write`. -/
def Write : Nat := 2
/-- Bit of `fsnotify.Remove`. -/
def Remove : Nat := 4
/-- Bit of `fsnotify.Rename`. -/
def Rename : Nat := 8
/-- Bit of `fsnotify.Chmod`. -/
def Chmod : Nat := 16

/-- An `fsnotify.Event`: the path and the operation mask. -/
structure Event where
  Name : String
  Op : Nat
  deriving DecidableEq, Repr

/-- Go `Op.Has`: `o&h == h`. -/
def Has (o h : Nat) : Bool := o &&& h == h

/-- Go `fsnotify.Op.String`: the upper-case names of the set bits, joined by
a bar, in the order CREATE, REMOVE, WRITE, RENAME, CHMOD. For a mask with
none of the five bits the current library gives `[no events]` (releases
before 1.6 give the empty string); nothing below depends on that case. -/
def OpString (o : Nat) : String :=
  let b := (if Has o Create then "|CREATE" else "")
    ++ (if Has o Remove then "|REMOVE" else "")
    ++ (if Has o Write then "|WRITE" else "")
    ++ (if Has o Rename then "|RENAME" else "")
    ++ (if Has o Chmod then "|CHMOD" else "")
  if b.length = 0 then "[no events]" else b.drop 1

/-- The state of an `fsnotify.Watcher` the driver can observe: the paths
added so far (in the order of the successful `Add` calls) and whether
`Close` was called. -/
structure Watcher where
  watches : List String
  closed : Bool
  deriving DecidableEq, Repr

/-- Go `fsnotify.NewWatcher`: no watches, not closed. -/
def NewWatcher : Watcher := { watches := [], closed := false }

/-- Go `Watcher.Add(path)`. Whether the operating system accepts the watch
is given by `addOk`; on success the path is subscribed. -/
def Watcher.Add (addOk : String → Bool) (w : Watcher) (path : String) : Watcher × Option String :=
  if addOk path then ({ w with watches := w.watches ++ [path] }, none)
  else (w, some path)

/-- Go `Watcher.Close`: a second call does nothing. -/
def Watcher.Close (w : Watcher) : Watcher :=
  if w.closed then w else { watches := [], closed := true }

end fsnotify

/-! ## pkg/watcher/watcher.go -/

namespace watcher

/-- Go struct `FileWatcher`. `stopChClosed` is the state of the channel
`stopCh` (a channel on which nothing is ever sent: it is open or closed). -/
structure FileWatcher where
  watcher : fsnotify.Watcher
  paths : List String
  events : List String
  execCommand : String
  execArgs : List String
  environment : Option (AList (fun (_ : String) => String))
  ignorePatterns : List String
  recursiveWatch : Bool
  stopChClosed : Bool

/-- Go `NewFileWatcher`: fails when `fsnotify.NewWatcher` does
(`newWatcherOk = false`); otherwise the arguments are stored with a new
watcher and a fresh stop channel. -/
def NewFileWatcher (newWatcherOk : Bool) (paths events : List String) (execCommand : String)
    (execArgs : List String) (environment : Option (AList (fun (_ : String) => String)))
    (ignorePatterns : List String) (recursiveWatch : Bool) : Option FileWatcher :=
  if !newWatcherOk then none
  else some
    { watcher := fsnotify.NewWatcher
      paths := paths
      events := events
      execCommand := execCommand
      execArgs := execArgs
      environment := environment
      ignorePatterns := ignorePatterns
      recursiveWatch := recursiveWatch
      stopChClosed := false }

/-- Go `eventToString`: the first case of the switch that holds. -/
def eventToString (event : fsnotify.Event) : String :=
  if event.Op &&& fsnotify.Create = fsnotify.Create then "create"
  else if event.Op &&& fsnotify.Write = fsnotify.Write then "modify"
  else if event.Op &&& fsnotify.Remove = fsnotify.Remove then "remove"
  else if event.Op &&& fsnotify.Rename = fsnotify.Rename then "rename"
  else if event.Op &&& fsnotify.Chmod = fsnotify.Chmod then "chmod"
  else "unknown"

/-- Go `containsString`: linear search. -/
def containsString : List String → String → Bool
  | [], _ => false
  | s :: rest, str => if s = str then true else containsString rest str

/-- The loop over the ignore patterns in `shouldHandle`: `false` as soon as
a pattern matches (the error of the matcher is dropped: `matched, _ :=`). -/
def ignoreLoop (globMatch : GlobMatch) (base : String) : List String → Bool
  | [] => true
  | pattern :: rest =>
    if (globMatch pattern base).1 then false else ignoreLoop globMatch base rest

/-- Go `FileWatcher.shouldHandle`. -/
def shouldHandle (globMatch : GlobMatch) (fw : FileWatcher) (event : fsnotify.Event) : Bool :=
  -- check if event type is in our list
  let eventType := eventToString event
  if !containsString fw.events eventType then false
  else
    -- check ignore patterns
    ignoreLoop globMatch (filepath.Base event.Name) fw.ignorePatterns

/-- The process `handleEvent` starts: `exec.Command(name, args...)` with
`cmd.Env`. -/
structure Cmd where
  name : String
  args : List String
  env : List String
  deriving DecidableEq, Repr

/-- The loop `for k, v := range fw.environment` of `handleEvent`: appends
`k=v` for each entry (a nil map has no entries). -/
def appendCustomEnv (env : List String) : List (Sigma (fun (_ : String) => String)) → List String
  | [] => env
  | kv :: rest => appendCustomEnv (env ++ [kv.1 ++ "=" ++ kv.2]) rest

/-- Go `FileWatcher.handleEvent`, up to the start of the command: `none`
when `execCommand` is empty (the function returns after logging), else the
command with its environment. `environ` is `os.Environ()`. -/
def handleEvent (environ : List String) (fw : FileWatcher) (event : fsnotify.Event) : Option Cmd :=
  if fw.execCommand = "" then none
  else
    let env0 := environ ++
      ["WATCHER_EVENT_PATH=" ++ event.Name, "WATCHER_EVENT_OP=" ++ fsnotify.OpString event.Op]
    let custom := match fw.environment with
      | none => []
      | some m => m.entries
    some { name := fw.execCommand, args := fw.execArgs, env := appendCustomEnv env0 custom }

/-- What one `select` of the loop in `watch` receives: a value from
`watcher.Events` (`none`: the channel is closed, `ok = false`), a value from
`watcher.Errors`, or the closed `stopCh`. -/
inductive Signal
  | event (e : Option fsnotify.Event)
  | error (e : Option String)
  | stop

/-- One call of `handleEvent` made by the loop: the event and what the call
started. -/
structure Dispatch where
  event : fsnotify.Event
  cmd : Option Cmd
  deriving DecidableEq, Repr

/-- Go `FileWatcher.watch` run on a sequence of received signals: the calls
of `handleEvent` it makes, in order, until it returns. -/
def watch (globMatch : GlobMatch) (environ : List String) (fw : FileWatcher) : List Signal → List Dispatch
  | [] => []
  | .event none :: _ => []
  | .event (some event) :: rest =>
    if shouldHandle globMatch fw event then
      { event := event, cmd := handleEvent environ fw event } :: watch globMatch environ fw rest
    else watch globMatch environ fw rest
  | .error none :: _ => []
  | .error (some _) :: rest => watch globMatch environ fw rest
  | .stop :: _ => []

/-! ### `filepath.Walk` over a modelled directory tree -/

/-- The entries of one directory, in the order `readDirNames` lists them.
Each entry carries the path under which `Walk` visits it
(`filepath.Join(dir, name)`).
* `noStat`: `lstat` on the entry fails;
* `file`: anything `lstat` reports as not a directory (regular file, symlink);
* `dir`: a directory, with whether `readDirNames` succeeds on it and its entries. -/
inductive Entries
  | nil
  | noStat (path : String) (rest : Entries)
  | file (path : String) (rest : Entries)
  | dir (path : String) (readable : Bool) (children : Entries) (rest : Entries)
  deriving DecidableEq, Repr

/-- What `os.Lstat` and `readDirNames` report for a root path. -/
inductive Root
  | noStat
  | file
  | dir (readable : Bool) (children : Entries)
  deriving DecidableEq, Repr

/-- The errors that travel through `filepath.Walk`: the two sentinel values
of the library, a failed `lstat`, a failed directory read, and the error of
`watcher.Add` returned by the callback of `Start`. -/
inductive WalkErr
  | SkipDir
  | SkipAll
  | lstat (path : String)
  | readdir (path : String)
  | add (path : String)
  deriving DecidableEq, Repr

/-- Go `filepath.WalkFunc`, with the state the closure updates: the path, the
file info (`none`: nil, `some d`: `IsDir() = d`) and the incoming error. -/
abbrev WalkFunc (σ : Type) := σ → String → Option Bool → Option WalkErr → σ × Option WalkErr

/-- The loop `for _, name := range names` of Go `walk`, the recursive calls
of `walk` on the entries included. -/
def walkEntries {σ : Type} (fn : WalkFunc σ) : Entries → σ → σ × Option WalkErr
  | .nil, s => (s, none)
  | .noStat path rest, s =>
    -- lstat failed: `walkFn(filename, fileInfo, err)`
    let r := fn s path none (some (.lstat path))
    if r.2 ≠ none ∧ r.2 ≠ some .SkipDir then r
    else walkEntries fn rest r.1
  | .file path rest, s =>
    -- `walk` on something that is not a directory: `walkFn(path, info, nil)`
    let r := fn s path (some false) none
    if r.2 ≠ none then r
    else walkEntries fn rest r.1
  | .dir path readable children rest, s =>
    -- `walk` on a directory: `names, err := readDirNames(path)`, then
    -- `err1 := walkFn(path, info, err)`; return `err1` if one of them is not nil
    let rdErr : Option WalkErr := if readable then none else some (.readdir path)
    let r1 := fn s path (some true) rdErr
    let r := if rdErr ≠ none ∨ r1.2 ≠ none then r1 else walkEntries fn children r1.1
    if r.2 ≠ none ∧ r.2 ≠ some .SkipDir then r
    else walkEntries fn rest r.1

/-- Go `filepath.Walk(root, fn)`; `rt` is what the file system holds at `root`. -/
def Walk {σ : Type} (rt : Root) (root : String) (fn : WalkFunc σ) (s : σ) : σ × Option WalkErr :=
  let r : σ × Option WalkErr :=
    match rt with
    | .noStat => fn s root none (some (.lstat root))
    | .file => fn s root (some false) none
    | .dir readable children =>
      let rdErr : Option WalkErr := if readable then none else some (.readdir root)
      let r1 := fn s root (some true) rdErr
      if rdErr ≠ none ∨ r1.2 ≠ none then r1 else walkEntries fn children r1.1
  if r.2 = some .SkipDir ∨ r.2 = some .SkipAll then (r.1, none) else r

/-! ### `Start` -/

/-- The errors of `Start`, with the cause wrapped by `fmt.Errorf`. -/
inductive StartErr
  | addPathRecursively (cause : WalkErr)
  | addPath (path : String)
  deriving DecidableEq, Repr

/-- The closure `Start` passes to `filepath.Walk`: an incoming error is
returned as it is; a directory is added to the watcher; anything else is
skipped. -/
def startWalkFn (addOk : String → Bool) : WalkFunc fsnotify.Watcher :=
  fun w path info err =>
    match err with
    | some e => (w, some e)
    | none =>
      if info = some true then
        let r := w.Add addOk path
        (r.1, r.2.map WalkErr.add)
      else (w, none)

/-- The loop `for _, path := range fw.paths` of `Start`. `fs` gives the tree
found at each root, `addOk` whether the system accepts a watch on a path. -/
def startLoop (fs : String → Root) (addOk : String → Bool) (recursiveWatch : Bool) :
    List String → fsnotify.Watcher → fsnotify.Watcher × Option StartErr
  | [], w => (w, none)
  | path :: rest, w =>
    if recursiveWatch then
      let r := Walk (fs path) path (startWalkFn addOk) w
      match r.2 with
      | some e => (r.1, some (.addPathRecursively e))
      | none => startLoop fs addOk recursiveWatch rest r.1
    else
      let r := w.Add addOk path
      match r.2 with
      | some p => (r.1, some (.addPath p))
      | none => startLoop fs addOk recursiveWatch rest r.1

/-- What a call of `Start` leaves behind: the watcher, whether the goroutine
`fw.watch()` was started, and the returned error. -/
structure StartResult where
  fw : FileWatcher
  watchStarted : Bool
  err : Option StartErr

/-- Go `FileWatcher.Start`. -/
def Start (fs : String → Root) (addOk : String → Bool) (fw : FileWatcher) : StartResult :=
  -- add paths to watch
  let r := startLoop fs addOk fw.recursiveWatch fw.paths fw.watcher
  match r.2 with
  | some e => { fw := { fw with watcher := r.1 }, watchStarted := false, err := some e }
  | none =>
    -- start watching: `go fw.watch()`
    { fw := { fw with watcher := r.1 }, watchStarted := true, err := none }

/-- A Go run-time panic. -/
inductive GoPanic
  | closeOfClosedChannel
  deriving DecidableEq, Repr

/-- Go `FileWatcher.Stop`: `close(fw.stopCh)` (closing a closed channel
panics), then `fw.watcher.Close()`. -/
def Stop (fw : FileWatcher) : Except GoPanic FileWatcher :=
  if fw.stopChClosed then .error .closeOfClosedChannel
  else .ok { fw with stopChClosed := true, watcher := fw.watcher.Close }

end watcher

/-! ## pkg/driver/config.go -/

namespace driver

/-- Go struct `TaskConfig`. -/
structure TaskConfig where
  Paths : List String
  Events : List String
  ExecCommand : String
  ExecArgs : List String
  Environment : Option (AList (fun (_ : String) => String))
  RecursiveWatch : Bool
  IgnorePatterns : List String
  RetryInterval : Int
  MaxRetries : Int
  Timeout : Int

/-- The errors `Validate` and `validateConfig` return. -/
inductive ConfigErr
  | noPath
  | noEvent
  | noExecCommand
  | invalidEvent (event : String)
  | negativeTimeout
  | negativeRetryInterval
  | negativeMaxRetries
  deriving DecidableEq, Repr

/-- The map literal `validEvents` of `Validate`. -/
def validEvents : List (String × Bool) :=
  [("create", true), ("modify", true), ("remove", true), ("rename", true), ("chmod", true)]

/-- The loop `for _, event := range tc.Events` of `Validate`: the first
event that is not in the map (a missing key reads as `false`). -/
def validateEvents : List String → Option ConfigErr
  | [] => none
  | event :: rest =>
    if !(validEvents.lookup event).getD false then some (.invalidEvent event)
    else validateEvents rest

/-- Go `TaskConfig.Validate`. -/
def TaskConfig.Validate (tc : TaskConfig) : Option ConfigErr :=
  if tc.Paths.length = 0 then some .noPath
  else if tc.Events.length = 0 then some .noEvent
  else if tc.ExecCommand = "" then some .noExecCommand
  else
    -- validate event types
    match validateEvents tc.Events with
    | some e => some e
    | none =>
      -- validate timeout
      if tc.Timeout < 0 then some .negativeTimeout
      -- validate retry settings
      else if tc.RetryInterval < 0 then some .negativeRetryInterval
      else if tc.MaxRetries < 0 then some .negativeMaxRetries
      else none

/-- The loop `for k, v := range other.Environment` of `Merge`:
`result.Environment[k] = v` for each entry. -/
def mergeEnv (result : AList (fun (_ : String) => String)) :
    List (Sigma (fun (_ : String) => String)) → AList (fun (_ : String) => String)
  | [] => result
  | kv :: rest => mergeEnv (result.insert kv.1 kv.2) rest

/-- Go `TaskConfig.Merge`: a copy of `tc` in which the fields set in `other`
take precedence. The value returned is embedded; that the copy shares its
map with `tc` (so that the loop also writes into the map of `tc`) is not. -/
def TaskConfig.Merge (tc other : TaskConfig) : TaskConfig :=
  let result := tc
  let result := if other.Paths.length > 0 then { result with Paths := other.Paths } else result
  let result := if other.Events.length > 0 then { result with Events := other.Events } else result
  let result :=
    if other.ExecCommand ≠ "" then { result with ExecCommand := other.ExecCommand } else result
  let result :=
    if other.ExecArgs.length > 0 then { result with ExecArgs := other.ExecArgs } else result
  let result :=
    match other.Environment with
    | some otherEnv =>
      let env := match result.Environment with
        | none => (∅ : AList (fun (_ : String) => String))
        | some e => e
      { result with Environment := some (mergeEnv env otherEnv.entries) }
    | none => result
  let result := if other.RecursiveWatch then { result with RecursiveWatch := true } else result
  let result :=
    if other.IgnorePatterns.length > 0 then { result with IgnorePatterns := other.IgnorePatterns }
    else result
  let result :=
    if other.RetryInterval > 0 then { result with RetryInterval := other.RetryInterval }
    else result
  let result :=
    if other.MaxRetries > 0 then { result with MaxRetries := other.MaxRetries } else result
  let result := if other.Timeout > 0 then { result with Timeout := other.Timeout } else result
  result

/-- Reading key `k` from a Go map that may be nil: `v, ok := m[k]`. -/
def envLookup (m : Option (AList (fun (_ : String) => String))) (k : String) : Option String :=
  match m with
  | none => none
  | some e => e.lookup k

/-! ## pkg/driver/driver.go -/

/-- Go struct `TaskHandle`: the configuration and the watcher (a pointer,
`none` is nil). -/
structure TaskHandle where
  taskConfig : TaskConfig
  watcher : Option watcher.FileWatcher

/-- Go struct `Driver`: the map of tasks by task id. -/
structure Driver where
  tasks : AList (fun (_ : String) => TaskHandle)

/-- Go `Driver.validateConfig`. -/
def validateConfig (config : TaskConfig) : Option ConfigErr :=
  if config.Paths.length = 0 then some .noPath
  else if config.Events.length = 0 then some .noEvent
  else none

/-- The errors of `StartTask`. -/
inductive StartTaskErr
  | decode
  | invalidConfig (e : ConfigErr)
  | createWatcher
  | startWatcher (e : watcher.StartErr)
  deriving DecidableEq, Repr

/-- What a call of `StartTask` leaves behind: the driver, the returned
error, the watcher `NewFileWatcher` created (if the call got that far) in
its final state, and whether its goroutine was started. -/
structure StartTaskResult where
  driver : Driver
  err : Option StartTaskErr
  created : Option watcher.FileWatcher
  watchStarted : Bool

/-- Go `Driver.StartTask`. `decoded` is the result of
`cfg.DecodeDriverConfig`, `id` is `cfg.ID`; `newWatcherOk`, `fs` and `addOk`
are the answers of the operating system. -/
def StartTask (newWatcherOk : Bool) (fs : String → watcher.Root) (addOk : String → Bool)
    (d : Driver) (id : String) (decoded : Option TaskConfig) : StartTaskResult :=
  match decoded with
  | none => { driver := d, err := some .decode, created := none, watchStarted := false }
  | some taskConfig =>
    -- validate configuration
    match validateConfig taskConfig with
    | some e => { driver := d, err := some (.invalidConfig e), created := none, watchStarted := false }
    | none =>
      -- create file watcher instance
      match watcher.NewFileWatcher newWatcherOk taskConfig.Paths taskConfig.Events
          taskConfig.ExecCommand taskConfig.ExecArgs taskConfig.Environment
          taskConfig.IgnorePatterns taskConfig.RecursiveWatch with
      | none => { driver := d, err := some .createWatcher, created := none, watchStarted := false }
      | some fw =>
        -- start the watcher
        let r := watcher.Start fs addOk fw
        match r.err with
        | some e =>
          { driver := d, err := some (.startWatcher e), created := some r.fw,
            watchStarted := r.watchStarted }
        | none =>
          let h : TaskHandle := { taskConfig := taskConfig, watcher := some r.fw }
          { driver := { tasks := d.tasks.insert id h }, err := none, created := some r.fw,
            watchStarted := r.watchStarted }

/-- The error `drivers.ErrTaskNotFound`. -/
inductive DriverErr
  | ErrTaskNotFound
  deriving DecidableEq, Repr

/-- Go `Driver.StopTask`: stops the watcher of the task; the handle stays in
the map. The watcher is reached through a pointer, so its new state is
stored back in the handle. -/
def StopTask (d : Driver) (taskID : String) : Except watcher.GoPanic (Driver × Option DriverErr) :=
  match d.tasks.lookup taskID with
  | none => .ok (d, some .ErrTaskNotFound)
  | some handle =>
    match handle.watcher with
    | some fw =>
      match watcher.Stop fw with
      | .error p => .error p
      | .ok fw1 => .ok ({ tasks := d.tasks.insert taskID { handle with watcher := some fw1 } }, none)
    | none => .ok (d, none)

/-- Go `Driver.DestroyTask`: stops the watcher of the task and deletes the
task from the map. -/
def DestroyTask (d : Driver) (taskID : String) : Except watcher.GoPanic (Driver × Option DriverErr) :=
  match d.tasks.lookup taskID with
  | none => .ok (d, some .ErrTaskNotFound)
  | some handle =>
    match handle.watcher with
    | some fw =>
      match watcher.Stop fw with
      | .error p => .error p
      | .ok _ => .ok ({ tasks := d.tasks.erase taskID }, none)
    | none => .ok ({ tasks := d.tasks.erase taskID }, none)

end driver

/-! ## Reference definitions for the registration claims

These follow the words of the specification, not the code: the directories
of a tree, the subscription set the specification describes, and what it
means that every step of a start succeeds. They are compared with `Start`
in the theorems below. -/

namespace watcher

/-- The directories among the entries of a directory and below them, in
depth-first order; files and entries that cannot be examined are not listed. -/
def Entries.dirs : Entries → List String
  | .nil => []
  | .noStat _ rest => rest.dirs
  | .file _ rest => rest.dirs
  | .dir path _ children rest => path :: (children.dirs ++ rest.dirs)

/-- The directories found by walking a root: the root itself when it is a
directory, and every directory below it. -/
def Root.dirs (root : String) : Root → List String
  | .noStat => []
  | .file => []
  | .dir _ children => root :: children.dirs

/-- The subscriptions the specification describes: in non-recursive mode
the roots; in recursive mode the directories found by walking each root. -/
def subscriptions (fs : String → Root) (recursiveWatch : Bool) : List String → List String
  | [] => []
  | root :: rest =>
    (if recursiveWatch then (fs root).dirs root else [root]) ++ subscriptions fs recursiveWatch rest

/-- Every traversal and registration step on the entries succeeds: every
entry can be examined, every directory can be read and watched. -/
def Entries.stepsOk (addOk : String → Bool) : Entries → Bool
  | .nil => true
  | .noStat _ _ => false
  | .file _ rest => rest.stepsOk addOk
  | .dir path readable children rest =>
    readable && addOk path && children.stepsOk addOk && rest.stepsOk addOk

/-- Every traversal and registration step of the walk of a root succeeds. -/
def Root.stepsOk (addOk : String → Bool) (root : String) : Root → Bool
  | .noStat => false
  | .file => true
  | .dir readable children => readable && addOk root && children.stepsOk addOk

/-- Every traversal and registration step of a start succeeds. -/
def stepsOk (fs : String → Root) (addOk : String → Bool) (recursiveWatch : Bool) :
    List String → Bool
  | [] => true
  | root :: rest =>
    (if recursiveWatch then (fs root).stepsOk addOk root else addOk root)
      && stepsOk fs addOk recursiveWatch rest

/-- The kinds of step a start performs: examining an entry (`lstat`),
reading a directory (`readDirNames`), registering a path (`watcher.Add`). -/
inductive StepKind
  | lstat
  | readdir
  | add
  deriving DecidableEq, Repr

/-- One step of a start: its kind, the path it works on, and whether it
succeeds. -/
structure Step where
  kind : StepKind
  path : String
  ok : Bool
  deriving DecidableEq, Repr

/-- The steps of walking the entries of a directory, in order: every entry
is examined; a directory is then read, registered, and its entries are
walked before the next entry. The outcome of each step is what the tree
and `addOk` say. -/
def Entries.steps (addOk : String → Bool) : Entries → List Step
  | .nil => []
  | .noStat path rest => ⟨.lstat, path, false⟩ :: rest.steps addOk
  | .file path rest => ⟨.lstat, path, true⟩ :: rest.steps addOk
  | .dir path readable children rest =>
    ⟨.lstat, path, true⟩ :: ⟨.readdir, path, readable⟩ :: ⟨.add, path, addOk path⟩ ::
      (children.steps addOk ++ rest.steps addOk)

/-- The steps of walking a root. -/
def Root.steps (addOk : String → Bool) (root : String) : Root → List Step
  | .noStat => [⟨.lstat, root, false⟩]
  | .file => [⟨.lstat, root, true⟩]
  | .dir readable children =>
    ⟨.lstat, root, true⟩ :: ⟨.readdir, root, readable⟩ :: ⟨.add, root, addOk root⟩ ::
      children.steps addOk

/-- The steps of a start, root after root: in non-recursive mode the
registration of the root, in recursive mode the steps of walking it. -/
def startSteps (fs : String → Root) (addOk : String → Bool) (recursiveWatch : Bool) :
    List String → List Step
  | [] => []
  | root :: rest =>
    (if recursiveWatch then (fs root).steps addOk root else [⟨.add, root, addOk root⟩])
      ++ startSteps fs addOk recursiveWatch rest

/-- The steps before the first failing one. -/
def stepsBeforeFailure : List Step → List Step
  | [] => []
  | s :: rest => if s.ok then s :: stepsBeforeFailure rest else []

/-- The first failing step, if there is one. -/
def firstFailure : List Step → Option Step
  | [] => none
  | s :: rest => if s.ok then firstFailure rest else some s

/-- The paths registered by a list of steps: the paths of its registration
steps, in order. -/
def registered : List Step → List String
  | [] => []
  | s :: rest => if s.kind = .add then s.path :: registered rest else registered rest

/-- The error of the walk for a failing step: it names the kind and the
path of the step. -/
def Step.walkErr (s : Step) : WalkErr :=
  match s.kind with
  | .lstat => .lstat s.path
  | .readdir => .readdir s.path
  | .add => .add s.path

/-- The error `Start` returns for a failing step: in recursive mode the
error of the walk wrapped as "failed to add path recursively", in
non-recursive mode "failed to add path". -/
def Step.startErr (recursiveWatch : Bool) (s : Step) : StartErr :=
  if recursiveWatch then .addPathRecursively s.walkErr else .addPath s.path

/-- The tree `root/{a/, a/b/, c}` of the specification: `a` and `a/b` are
directories, `c` is a file. Any other root does not exist. -/
def exampleTree : String → Root := fun p =>
  if p = "root" then
    .dir true (.dir "root/a" true (.dir "root/a/b" true .nil .nil) (.file "root/c" .nil))
  else .noStat

end watcher

/-! ## Theorems -/

/-! ### The loops of the glob matcher never use up their fuel -/

namespace filepath

theorem scanSplit_length (n : Nat) :
    ∀ (b : Bool) (l : List Char), l.length ≤ n → (scanSplit b l).2.length ≤ l.length := by
  induction n with
  | zero =>
    intro b l h
    have hl : l = [] := List.length_eq_zero.1 (Nat.le_zero.1 h)
    subst hl
    simp [scanSplit]
  | succ n ih =>
    intro b l h
    cases l with
    | nil => simp [scanSplit]
    | cons c rest =>
      have hrest : rest.length ≤ n := by simpa using h
      unfold scanSplit
      split_ifs with h1 h2 h3 h4 h5
      · cases rest with
        | nil => simp
        | cons d rest2 =>
          have h2 : rest2.length ≤ n := by
            simp at hrest; omega
          have := ih b rest2 h2
          simp only [List.length_cons]
          omega
      · have := ih true rest hrest
        simp only [List.length_cons]
        omega
      · have := ih false rest hrest
        simp only [List.length_cons]
        omega
      · simp
      · have := ih b rest hrest
        simp only [List.length_cons]
        omega
      · have := ih b rest hrest
        simp only [List.length_cons]
        omega

theorem dropWhile_length_le (q : Char → Bool) (l : List Char) :
    (l.dropWhile q).length ≤ l.length := by
  induction l with
  | nil => simp
  | cons c rest ih =>
    by_cases h : q c = true
    · simp only [List.dropWhile_cons, h, if_true, List.length_cons]; omega
    · simp [List.dropWhile_cons, h]

theorem scanChunk_length (p : Char) (ps : List Char) :
    (scanChunk (p :: ps)).2.2.length ≤ ps.length := by
  unfold scanChunk
  by_cases hp : p = '*'
  · subst hp
    have h1 := dropWhile_length_le (fun c => c == '*') ps
    have h2 := scanSplit_length _ false (List.dropWhile (fun c => c == '*') ps) (Nat.le_refl _)
    simp only [List.dropWhile_cons, beq_self_eq_true, if_true]
    omega
  · have hd : List.dropWhile (fun c => c == '*') (p :: ps) = p :: ps := by
      simp [List.dropWhile_cons, hp]
    simp only [hd]
    have hps := scanSplit_length _ true ps (Nat.le_refl _)
    have hps2 := scanSplit_length _ false ps (Nat.le_refl _)
    unfold scanSplit
    split_ifs with h1 h2 h3
    · cases ps with
      | nil => simp
      | cons d rest2 =>
        have := scanSplit_length _ false rest2 (Nat.le_refl _)
        simp only [List.length_cons]
        omega
    · exact hps
    · exact hps2
    · exact hps2

theorem getEsc_length (chunk : List Char) (r : Nat) (rest : List Char)
    (h : getEsc chunk = .ok (r, rest)) : rest.length < chunk.length := by
  unfold getEsc at h
  cases chunk with
  | nil => simp at h
  | cons c tl =>
    simp only at h
    split_ifs at h with h1 h2
    · cases tl with
      | nil => simp at h
      | cons d tl2 =>
        simp only at h
        split_ifs at h with h3
        injection h with h
        injection h with _ h
        subst h
        simp only [List.length_cons]
        omega
    · simp only at h
      split_ifs at h with h3
      injection h with h
      injection h with _ h
      subst h
      simp

theorem getEsc_error (chunk : List Char) (e : MatchErr) (h : getEsc chunk = .error e) :
    e = .ErrBadPattern := by
  unfold getEsc at h
  cases chunk with
  | nil =>
    injection h with h
    exact h.symm
  | cons c tl =>
    simp only at h
    split_ifs at h with h1 h2
    · injection h with h
      exact h.symm
    · cases tl with
      | nil =>
        injection h with h
        exact h.symm
      | cons d tl2 =>
        simp only at h
        split_ifs at h with h3
        injection h with h
        exact h.symm
    · simp only at h
      split_ifs at h with h3
      injection h with h
      exact h.symm

theorem classLoop_fuel (fuel : Nat) :
    ∀ (chunk : List Char) (r : Nat) (matched : Bool) (nrange : Nat), chunk.length < fuel →
      classLoop fuel chunk r matched nrange ≠ .error .outOfFuel ∧
      ∀ m rest, classLoop fuel chunk r matched nrange = .ok (m, rest) →
        rest.length < chunk.length := by
  induction fuel with
  | zero => intro chunk r matched nrange h; omega
  | succ fuel ih =>
    intro chunk r matched nrange h
    unfold classLoop
    split_ifs with h1
    · refine ⟨by simp, ?_⟩
      intro m rest he
      injection he with he
      injection he with _ he
      subst he
      cases chunk with
      | nil => simp at h1
      | cons c tl => simp
    · cases h2 : getEsc chunk with
      | error e =>
        have hne := getEsc_error chunk e h2
        subst hne
        simp
      | ok p =>
        obtain ⟨lo, chunk1⟩ := p
        have hl1 := getEsc_length chunk lo chunk1 h2
        simp only
        by_cases hh : chunk1.head? = some '-'
        · simp only [hh, if_true]
          cases h3 : getEsc chunk1.tail with
          | error e =>
            have hne := getEsc_error chunk1.tail e h3
            subst hne
            simp
          | ok p2 =>
            obtain ⟨hi, chunk2⟩ := p2
            have hl2 := getEsc_length chunk1.tail hi chunk2 h3
            have hl3 : chunk1.tail.length ≤ chunk1.length := by simp
            simp only
            have hi2 := ih chunk2 r (matched || (decide (lo ≤ r) && decide (r ≤ hi)))
              (nrange + 1) (by omega)
            refine ⟨hi2.1, fun m rest he => ?_⟩
            have := hi2.2 m rest he
            omega
        · simp only [hh, if_false]
          have hi2 := ih chunk1 r (matched || (decide (lo ≤ r) && decide (r ≤ lo)))
            (nrange + 1) (by omega)
          refine ⟨hi2.1, fun m rest he => ?_⟩
          have := hi2.2 m rest he
          omega

theorem matchChunkLoop_fuel (fuel : Nat) :
    ∀ (chunk s : List Char) (failed : Bool), chunk.length ≤ fuel →
      matchChunkLoop fuel chunk s failed ≠ .error .outOfFuel := by
  induction fuel with
  | zero =>
    intro chunk s failed h
    have hl : chunk = [] := List.length_eq_zero.1 (Nat.le_zero.1 h)
    subst hl
    unfold matchChunkLoop
    split_ifs <;> simp
  | succ fuel ih =>
    intro chunk s failed h
    cases chunk with
    | nil =>
      unfold matchChunkLoop
      split_ifs <;> simp
    | cons c chunkTail =>
      have htl : chunkTail.length ≤ fuel := by simpa using h
      have key : ∀ (chunk2 : List Char) (r : Nat) (s1 : List Char) (f neg : Bool),
          chunk2.length ≤ fuel →
          (match classLoop (fuel + 1) chunk2 r false 0 with
            | Except.error e => Except.error e
            | Except.ok (matched, chunk3) => matchChunkLoop fuel chunk3 s1 (f || (matched == neg)))
            ≠ Except.error MatchErr.outOfFuel := by
        intro chunk2 r s1 f neg hlen
        have hc := classLoop_fuel (fuel + 1) chunk2 r false 0 (by omega)
        cases h3 : classLoop (fuel + 1) chunk2 r false 0 with
        | error e =>
          simp only
          intro hcontra
          injection hcontra with hcontra
          rw [hcontra] at h3
          exact hc.1 h3
        | ok p =>
          obtain ⟨m, chunk3⟩ := p
          have hl3 := hc.2 m chunk3 h3
          simp only
          exact ih _ _ _ (by omega)
      unfold matchChunkLoop
      simp only
      by_cases h1 : c = '['
      · rw [if_pos h1]
        apply key
        split_ifs
        · have : chunkTail.tail.length ≤ chunkTail.length := by simp
          omega
        · exact htl
      · rw [if_neg h1]
        by_cases h2 : c = '?'
        · rw [if_pos h2]
          exact ih _ _ _ htl
        · rw [if_neg h2]
          by_cases h3 : c = '\\'
          · simp only [h3, if_true]
            cases chunkTail with
            | nil => simp
            | cons lit chunk2 =>
              simp only
              apply ih
              simp only [List.length_cons] at htl
              omega
          · simp only [h3, if_false]
            exact ih _ _ _ htl

theorem matchChunk_fuel (chunk s : List Char) : matchChunk chunk s ≠ .error .outOfFuel :=
  matchChunkLoop_fuel chunk.length chunk s false (Nat.le_refl _)

theorem starLoop_fuel (chunk : List Char) (last : Bool) (name : List Char) :
    starLoop chunk last name ≠ .error .outOfFuel := by
  induction name with
  | nil => simp [starLoop]
  | cons c nameTail ih =>
    unfold starLoop
    split_ifs with h1
    · simp
    · have hm := matchChunk_fuel chunk nameTail
      split
      · split_ifs
        · exact ih
        · simp
      · exact ih
      · rename_i e he
        intro hcontra
        injection hcontra with hcontra
        rw [hcontra] at he
        exact hm he

theorem matchLoop_fuel (fuel : Nat) :
    ∀ (pattern name : List Char), pattern.length ≤ fuel →
      matchLoop fuel pattern name ≠ .error .outOfFuel := by
  induction fuel with
  | zero =>
    intro pattern name h
    have hl : pattern = [] := List.length_eq_zero.1 (Nat.le_zero.1 h)
    subst hl
    simp [matchLoop]
  | succ fuel ih =>
    intro pattern name h
    cases pattern with
    | nil => simp [matchLoop]
    | cons p ps =>
      have hps : ps.length ≤ fuel := by simpa using h
      have hsc := scanChunk_length p ps
      have hrec : ∀ t, matchLoop fuel (scanChunk (p :: ps)).2.2 t ≠ .error .outOfFuel :=
        fun t => ih _ t (by omega)
      have hstar : (match starLoop (scanChunk (p :: ps)).2.1
            (decide ((scanChunk (p :: ps)).2.2 = [])) name with
          | Except.error e => Except.error e
          | Except.ok (some t2) => matchLoop fuel (scanChunk (p :: ps)).2.2 t2
          | Except.ok none => Except.ok false) ≠ Except.error MatchErr.outOfFuel := by
        have hs := starLoop_fuel (scanChunk (p :: ps)).2.1
          (decide ((scanChunk (p :: ps)).2.2 = [])) name
        cases h3 : starLoop (scanChunk (p :: ps)).2.1
            (decide ((scanChunk (p :: ps)).2.2 = [])) name with
        | error e =>
          simp only
          intro hcontra
          injection hcontra with hcontra
          rw [hcontra] at h3
          exact hs h3
        | ok o =>
          cases o with
          | none => simp
          | some t2 => exact hrec t2
      have hm := matchChunk_fuel (scanChunk (p :: ps)).2.1 name
      unfold matchLoop
      simp only
      by_cases h1 : (scanChunk (p :: ps)).1 = true ∧ (scanChunk (p :: ps)).2.1 = []
      · rw [if_pos h1]
        simp
      · rw [if_neg h1]
        cases h3 : matchChunk (scanChunk (p :: ps)).2.1 name with
        | error e =>
          simp only
          intro hcontra
          injection hcontra with hcontra
          rw [hcontra] at h3
          exact hm h3
        | ok o =>
          cases o with
          | none =>
            simp only
            by_cases h4 : (scanChunk (p :: ps)).1 = true
            · rw [if_pos h4]
              exact hstar
            · rw [if_neg h4]
              simp
          | some t =>
            simp only
            by_cases h5 : t = [] ∨ (scanChunk (p :: ps)).2.2 ≠ []
            · rw [if_pos h5]
              exact hrec t
            · rw [if_neg h5]
              by_cases h4 : (scanChunk (p :: ps)).1 = true
              · rw [if_pos h4]
                exact hstar
              · rw [if_neg h4]
                simp

/-- The fuel of `Match` is never used up. -/
theorem Match_ne_outOfFuel (pattern name : String) :
    Match pattern name ≠ .error .outOfFuel :=
  matchLoop_fuel pattern.length pattern.toList name.toList (Nat.le_refl _)

end filepath

open watcher driver

/-! ### The pattern filter and the event step of the watch loop -/

theorem containsString_eq_true (l : List String) (str : String) :
    containsString l str = true ↔ str ∈ l := by
  induction l with
  | nil => simp [containsString]
  | cons s rest ih =>
    by_cases h : s = str
    · simp [containsString, h]
    · have h2 : ¬ str = s := fun e => h e.symm
      simp [containsString, h, h2, ih]

theorem ignoreLoop_eq_true (globMatch : GlobMatch) (base : String) (pats : List String) :
    ignoreLoop globMatch base pats = true ↔ ∀ p ∈ pats, (globMatch p base).1 = false := by
  induction pats with
  | nil => simp [ignoreLoop]
  | cons p rest ih =>
    by_cases h : (globMatch p base).1 = true
    · simp [ignoreLoop, h]
    · simp [ignoreLoop, h, ih]

theorem shouldHandle_eq_true (globMatch : GlobMatch) (fw : FileWatcher) (event : fsnotify.Event) :
    shouldHandle globMatch fw event = true ↔
      (eventToString event ∈ fw.events ∧
        ∀ p ∈ fw.ignorePatterns, (globMatch p (filepath.Base event.Name)).1 = false) := by
  unfold shouldHandle
  by_cases h : containsString fw.events (eventToString event) = true
  · have hm := (containsString_eq_true _ _).1 h
    simp [h, hm, ignoreLoop_eq_true]
  · have hm : ¬ eventToString event ∈ fw.events := fun m => h ((containsString_eq_true _ _).2 m)
    simp [h, hm]

theorem watch_dispatch_handled (globMatch : GlobMatch) (environ : List String) (fw : FileWatcher)
    (sigs : List Signal) (d : Dispatch) (hd : d ∈ watch globMatch environ fw sigs) :
    shouldHandle globMatch fw d.event = true := by
  induction sigs with
  | nil => simp [watch] at hd
  | cons sig rest ih =>
    cases sig with
    | event e =>
      cases e with
      | none => simp [watch] at hd
      | some ev =>
        by_cases h : shouldHandle globMatch fw ev = true
        · simp only [watch, h, if_true, List.mem_cons] at hd
          rcases hd with hd | hd
          · rw [hd]; exact h
          · exact ih hd
        · simp only [watch, h] at hd
          exact ih hd
    | error e =>
      cases e with
      | none => simp [watch] at hd
      | some msg =>
        simp only [watch] at hd
        exact ih hd
    | stop => simp [watch] at hd

/-- C1. `shouldHandle` returns true exactly when the kind string of the event
is in the configured events list and no ignore pattern matches the basename
of the event path. In the watch loop, the step for a received event calls
`handleEvent` exactly when `shouldHandle` holds, so every call of
`handleEvent` the loop ever makes is for an event that satisfies both
conditions, and an event whose basename matches an ignore pattern is never
dispatched, whatever its kind. This holds for every glob matcher. -/
theorem shouldHandle_iff_kind_accepted_and_not_ignored (globMatch : GlobMatch)
    (environ : List String) (fw : FileWatcher) (event : fsnotify.Event) :
    (shouldHandle globMatch fw event = true ↔
      (eventToString event ∈ fw.events ∧
        ∀ p ∈ fw.ignorePatterns, (globMatch p (filepath.Base event.Name)).1 = false))
    ∧ (∀ rest : List Signal,
        watch globMatch environ fw (.event (some event) :: rest) =
          if shouldHandle globMatch fw event = true then
            { event := event, cmd := handleEvent environ fw event } ::
              watch globMatch environ fw rest
          else watch globMatch environ fw rest)
    ∧ (∀ (sigs : List Signal) (d : Dispatch), d ∈ watch globMatch environ fw sigs →
        (eventToString d.event ∈ fw.events ∧
          ∀ p ∈ fw.ignorePatterns, (globMatch p (filepath.Base d.event.Name)).1 = false))
    ∧ ((∃ p ∈ fw.ignorePatterns, (globMatch p (filepath.Base event.Name)).1 = true) →
        ∀ (sigs : List Signal) (d : Dispatch), d ∈ watch globMatch environ fw sigs →
          d.event ≠ event) := by
  refine ⟨shouldHandle_eq_true globMatch fw event, ?_, ?_, ?_⟩
  · intro rest
    rfl
  · intro sigs d hd
    exact (shouldHandle_eq_true globMatch fw d.event).1
      (watch_dispatch_handled globMatch environ fw sigs d hd)
  · rintro ⟨p, hp, hmatch⟩ sigs d hd heq
    have h := (shouldHandle_eq_true globMatch fw d.event).1
      (watch_dispatch_handled globMatch environ fw sigs d hd)
    have h2 := h.2 p hp
    rw [heq, hmatch] at h2
    exact Bool.noConfusion h2

/-- The end-to-end scenario of the specification, with `filepath.Match` as
the matcher: paths `/tmp/watched`, events `create`, command `true`, ignore
pattern `*.tmp`. Creating `a.tmp` gives no dispatch; creating `b.txt` gives
exactly one. -/
theorem watch_scenario_ignore_tmp :
    ∃ fw, NewFileWatcher true ["/tmp/watched"] ["create"] "true" [] none ["*.tmp"] false = some fw ∧
      watch goMatch [] fw
        [.event (some ⟨"/tmp/watched/a.tmp", fsnotify.Create⟩),
         .event (some ⟨"/tmp/watched/b.txt", fsnotify.Create⟩)] =
        [{ event := ⟨"/tmp/watched/b.txt", fsnotify.Create⟩,
           cmd := some { name := "true", args := [],
                         env := ["WATCHER_EVENT_PATH=/tmp/watched/b.txt",
                                 "WATCHER_EVENT_OP=CREATE"] } }] :=
  ⟨_, rfl, by decide⟩

/-! ### Stop -/

theorem Stop_after_Stop (fw fw1 : FileWatcher) (h : Stop fw = .ok fw1) :
    Stop fw1 = .error .closeOfClosedChannel := by
  unfold Stop at h
  by_cases hc : fw.stopChClosed = true
  · simp [hc] at h
  · simp only [hc] at h
    injection h with h
    subst h
    simp [Stop]

theorem StopTask_after_StopTask (d : Driver) (taskID : String) (handle : TaskHandle)
    (fw : FileWatcher) (hl : d.tasks.lookup taskID = some handle) (hw : handle.watcher = some fw)
    (hc : fw.stopChClosed = false) :
    ∃ d1, StopTask d taskID = .ok (d1, none) ∧
      StopTask d1 taskID = .error .closeOfClosedChannel ∧
      DestroyTask d1 taskID = .error .closeOfClosedChannel := by
  let fw1 : FileWatcher := { fw with stopChClosed := true, watcher := fw.watcher.Close }
  let h1 : TaskHandle := { handle with watcher := some fw1 }
  refine ⟨⟨d.tasks.insert taskID h1⟩, ?_, ?_, ?_⟩
  · simp [StopTask, hl, hw, Stop, hc]
  · simp [StopTask, Stop]
  · simp [DestroyTask, Stop]

/-- The task configuration of the scenarios: one path, the event `create`,
the command `true`. -/
def scenarioConfig : TaskConfig :=
  { Paths := ["/tmp/watched"], Events := ["create"], ExecCommand := "true", ExecArgs := [],
    Environment := none, RecursiveWatch := false, IgnorePatterns := [],
    RetryInterval := 30, MaxRetries := 3, Timeout := 60 }

/-- The driver after a successful `StartTask` of `scenarioConfig` as task
`task1`, on a system where `/tmp/watched` is an empty directory. -/
def scenarioDriver : Driver :=
  (StartTask true (fun _ => .dir true .nil) (fun _ => true) { tasks := ∅ } "task1"
    (some scenarioConfig)).driver

/-- The watcher of `task1` in `scenarioDriver`: started, not stopped. -/
def scenarioWatcher : FileWatcher :=
  { watcher := { watches := ["/tmp/watched"], closed := false }
    paths := ["/tmp/watched"], events := ["create"], execCommand := "true", execArgs := []
    environment := none, ignorePatterns := [], recursiveWatch := false, stopChClosed := false }

theorem scenarioDriver_lookup :
    scenarioDriver.tasks.lookup "task1" =
      some { taskConfig := scenarioConfig, watcher := some scenarioWatcher } := by
  rfl

/-- C2 (the code at the failing input). A first `Stop` on a watcher whose
stop channel is open succeeds and closes it; a second `Stop` on the same
watcher then runs `close` on the closed channel, which panics. The same
happens through the driver: `StopTask` succeeds and leaves the stopped
watcher in the task map, and `StopTask` or `DestroyTask` on the same task
then panics; in particular for the task `task1` started from
`scenarioConfig`. -/
theorem Stop_twice_panics :
    (∀ fw fw1 : FileWatcher, Stop fw = .ok fw1 → Stop fw1 = .error .closeOfClosedChannel)
    ∧ (∀ fw : FileWatcher, fw.stopChClosed = false →
        ∃ fw1, Stop fw = .ok fw1 ∧ Stop fw1 = .error .closeOfClosedChannel)
    ∧ (∀ (d : Driver) (taskID : String) (handle : TaskHandle) (fw : FileWatcher),
        d.tasks.lookup taskID = some handle → handle.watcher = some fw →
        fw.stopChClosed = false →
        ∃ d1, StopTask d taskID = .ok (d1, none) ∧
          StopTask d1 taskID = .error .closeOfClosedChannel ∧
          DestroyTask d1 taskID = .error .closeOfClosedChannel)
    ∧ (∃ d1, StopTask scenarioDriver "task1" = .ok (d1, none) ∧
          StopTask d1 "task1" = .error .closeOfClosedChannel ∧
          DestroyTask d1 "task1" = .error .closeOfClosedChannel) := by
  refine ⟨Stop_after_Stop, ?_, StopTask_after_StopTask, ?_⟩
  · intro fw hc
    refine ⟨{ fw with stopChClosed := true, watcher := fw.watcher.Close }, ?_, ?_⟩
    · simp [Stop, hc]
    · simp [Stop]
  · exact StopTask_after_StopTask scenarioDriver "task1" _ scenarioWatcher
      scenarioDriver_lookup rfl rfl

/-! ### The environment of the command -/

theorem appendCustomEnv_eq (env : List String) (l : List (Sigma (fun (_ : String) => String))) :
    appendCustomEnv env l = env ++ l.map (fun kv => kv.1 ++ "=" ++ kv.2) := by
  induction l generalizing env with
  | nil => simp [appendCustomEnv]
  | cons kv rest ih => simp [appendCustomEnv, ih]

/-- A watcher with command `x` and the custom environment `FOO=1`. -/
def fooWatcher : FileWatcher :=
  { watcher := fsnotify.NewWatcher
    paths := ["/tmp"], events := ["modify"], execCommand := "x", execArgs := []
    environment := some (AList.singleton "FOO" "1"), ignorePatterns := []
    recursiveWatch := false, stopChClosed := false }

/-- C3 (counterexample). For a modify event on `/tmp/x` (operation `Write`,
kind string `modify`), the custom environment `FOO=1` and the inherited
environment `HOME=/root`, the command is started with
`WATCHER_EVENT_OP=WRITE`: the entry `WATCHER_EVENT_OP=modify`, made of the
kind string the filter uses, is not in the environment. -/
theorem handleEvent_op_entry_is_not_kind_string :
    eventToString ⟨"/tmp/x", fsnotify.Write⟩ = "modify" ∧
    ∃ cmd, handleEvent ["HOME=/root"] fooWatcher ⟨"/tmp/x", fsnotify.Write⟩ = some cmd ∧
      cmd.env = ["HOME=/root", "WATCHER_EVENT_PATH=/tmp/x", "WATCHER_EVENT_OP=WRITE", "FOO=1"] ∧
      ¬ ("WATCHER_EVENT_OP=" ++ eventToString ⟨"/tmp/x", fsnotify.Write⟩) ∈ cmd.env := by
  refine ⟨by decide, _, rfl, by decide, by decide⟩

/-- C3 (amended). For every event, every non-empty exec command, every
custom environment and every inherited environment, `handleEvent` starts the
configured command with the configured arguments, and its environment
contains every inherited entry, `WATCHER_EVENT_PATH=` followed by the event
path, `WATCHER_EVENT_OP=` followed by the rendering `Op.String()` of the
operation mask (the upper-case names CREATE, WRITE, REMOVE, RENAME, CHMOD
for the single operations), and `k=v` for every pair of the custom
environment. -/
theorem handleEvent_environment (environ : List String) (fw : FileWatcher)
    (event : fsnotify.Event) (hcmd : fw.execCommand ≠ "") :
    ∃ cmd, handleEvent environ fw event = some cmd ∧
      cmd.name = fw.execCommand ∧ cmd.args = fw.execArgs ∧
      (∀ e ∈ environ, e ∈ cmd.env) ∧
      ("WATCHER_EVENT_PATH=" ++ event.Name) ∈ cmd.env ∧
      ("WATCHER_EVENT_OP=" ++ fsnotify.OpString event.Op) ∈ cmd.env ∧
      (∀ m, fw.environment = some m → ∀ k v, m.lookup k = some v → (k ++ "=" ++ v) ∈ cmd.env) ∧
      (fsnotify.OpString fsnotify.Create = "CREATE" ∧ fsnotify.OpString fsnotify.Write = "WRITE" ∧
        fsnotify.OpString fsnotify.Remove = "REMOVE" ∧
        fsnotify.OpString fsnotify.Rename = "RENAME" ∧
        fsnotify.OpString fsnotify.Chmod = "CHMOD") := by
  refine ⟨_, by simp only [handleEvent, hcmd, if_false]; rfl, rfl, rfl, ?_, ?_, ?_, ?_, ?_⟩
  · intro e he
    simp [appendCustomEnv_eq, he]
  · simp [appendCustomEnv_eq]
  · simp [appendCustomEnv_eq]
  · intro m hm k v hkv
    have hmem : (⟨k, v⟩ : Sigma (fun (_ : String) => String)) ∈ m.entries :=
      AList.mem_lookup_iff.1 hkv
    simp only [hm, appendCustomEnv_eq, List.mem_append, List.mem_map]
    exact Or.inr ⟨⟨k, v⟩, hmem, rfl⟩
  · decide

/-- C3 (amended), at the example of the specification: environment `FOO=1`,
a modify event on `/tmp/x`. -/
theorem handleEvent_environment_witness :
    ∃ cmd, handleEvent ["HOME=/root"] fooWatcher ⟨"/tmp/x", fsnotify.Write⟩ = some cmd ∧
      cmd.name = "x" ∧ cmd.args = [] ∧
      (∀ e ∈ ["HOME=/root"], e ∈ cmd.env) ∧
      ("WATCHER_EVENT_PATH=" ++ "/tmp/x") ∈ cmd.env ∧
      ("WATCHER_EVENT_OP=" ++ fsnotify.OpString fsnotify.Write) ∈ cmd.env ∧
      (∀ m, fooWatcher.environment = some m → ∀ k v, m.lookup k = some v →
        (k ++ "=" ++ v) ∈ cmd.env) ∧
      (fsnotify.OpString fsnotify.Create = "CREATE" ∧ fsnotify.OpString fsnotify.Write = "WRITE" ∧
        fsnotify.OpString fsnotify.Remove = "REMOVE" ∧
        fsnotify.OpString fsnotify.Rename = "RENAME" ∧
        fsnotify.OpString fsnotify.Chmod = "CHMOD") :=
  handleEvent_environment ["HOME=/root"] fooWatcher ⟨"/tmp/x", fsnotify.Write⟩ (by decide)

/-! ### Registration at start -/

/-- The watcher with more watches. -/
def withWatches (w : fsnotify.Watcher) (added : List String) : fsnotify.Watcher :=
  { w with watches := w.watches ++ added }

theorem withWatches_nil (w : fsnotify.Watcher) : withWatches w [] = w := by
  simp [withWatches]

theorem withWatches_append (w : fsnotify.Watcher) (a b : List String) :
    withWatches (withWatches w a) b = withWatches w (a ++ b) := by
  simp [withWatches]

/-- What a walk or a start loop does to the watcher, given whether all its
steps succeed: with success, all of `full` is added and no error comes
back; otherwise an initial part of `full` is added and an error that is not
a sentinel comes back. -/
def WalkOutcome (ok : Bool) (full : List String) (w : fsnotify.Watcher)
    (r : fsnotify.Watcher × Option WalkErr) : Prop :=
  (ok = true → r = (withWatches w full, none)) ∧
  (ok = false → ∃ added rest e, r = (withWatches w added, some e) ∧
    e ≠ .SkipDir ∧ e ≠ .SkipAll ∧ added ++ rest = full)

theorem walkEntries_start (addOk : String → Bool) (es : Entries) (w : fsnotify.Watcher) :
    WalkOutcome (es.stepsOk addOk) es.dirs w (walkEntries (startWalkFn addOk) es w) := by
  induction es generalizing w with
  | nil =>
    refine ⟨fun _ => ?_, fun h => ?_⟩
    · simp [walkEntries, Entries.dirs, withWatches]
    · simp [Entries.stepsOk] at h
  | noStat path rest _ =>
    refine ⟨fun h => ?_, fun _ => ?_⟩
    · simp [Entries.stepsOk] at h
    · refine ⟨[], rest.dirs, .lstat path, ?_, by simp, by simp, by simp [Entries.dirs]⟩
      simp [walkEntries, startWalkFn, withWatches]
  | file path rest ih =>
    have hstep : walkEntries (startWalkFn addOk) (.file path rest) w
        = walkEntries (startWalkFn addOk) rest w := by
      simp [walkEntries, startWalkFn]
    rw [hstep]
    simpa [Entries.stepsOk, Entries.dirs] using ih w
  | dir path readable children rest ihc ihr =>
    cases readable with
    | false =>
      refine ⟨fun h => ?_, fun _ => ?_⟩
      · simp [Entries.stepsOk] at h
      · refine ⟨[], path :: (children.dirs ++ rest.dirs), .readdir path, ?_, by simp, by simp,
          by simp [Entries.dirs]⟩
        simp [walkEntries, startWalkFn, withWatches]
    | true =>
      by_cases hadd : addOk path = true
      · have hc := ihc (withWatches w [path])
        by_cases hcok : children.stepsOk addOk = true
        · have hce := hc.1 hcok
          rw [withWatches_append] at hce
          have hstep : walkEntries (startWalkFn addOk) (.dir path true children rest) w
              = walkEntries (startWalkFn addOk) rest (withWatches w ([path] ++ children.dirs)) := by
            simp [walkEntries, startWalkFn, fsnotify.Watcher.Add, hadd]
            simp [withWatches] at hce
            simp [hce, withWatches]
          rw [hstep]
          have hr := ihr (withWatches w ([path] ++ children.dirs))
          refine ⟨fun h => ?_, fun h => ?_⟩
          · have hrok : rest.stepsOk addOk = true := by
              simpa [Entries.stepsOk, hadd, hcok] using h
            rw [hr.1 hrok, withWatches_append]
            simp [Entries.dirs]
          · have hrok : rest.stepsOk addOk = false := by
              simpa [Entries.stepsOk, hadd, hcok] using h
            obtain ⟨added, rst, e, he, h1, h2, h3⟩ := hr.2 hrok
            refine ⟨[path] ++ children.dirs ++ added, rst, e, ?_, h1, h2, ?_⟩
            · rw [he, withWatches_append]
            · simp [Entries.dirs, ← h3]
        · have hcok2 : children.stepsOk addOk = false := by simpa using hcok
          obtain ⟨added, rst, e, he, h1, h2, h3⟩ := hc.2 hcok2
          rw [withWatches_append] at he
          refine ⟨fun h => ?_, fun _ => ?_⟩
          · simp [Entries.stepsOk, hcok2] at h
          · refine ⟨[path] ++ added, rst ++ rest.dirs, e, ?_, h1, h2, ?_⟩
            · simp [walkEntries, startWalkFn, fsnotify.Watcher.Add, hadd]
              simp [withWatches] at he
              simp [he, withWatches, h1]
            · simp [Entries.dirs, ← h3]
      · have hadd2 : addOk path = false := by simpa using hadd
        refine ⟨fun h => ?_, fun _ => ?_⟩
        · simp [Entries.stepsOk, hadd2] at h
        · refine ⟨[], path :: (children.dirs ++ rest.dirs), .add path, ?_, by simp, by simp,
            by simp [Entries.dirs]⟩
          simp [walkEntries, startWalkFn, fsnotify.Watcher.Add, hadd2, withWatches]

theorem Walk_start (addOk : String → Bool) (rt : Root) (root : String) (w : fsnotify.Watcher) :
    WalkOutcome (rt.stepsOk addOk root) (rt.dirs root) w (Walk rt root (startWalkFn addOk) w) := by
  cases rt with
  | noStat =>
    refine ⟨fun h => ?_, fun _ => ?_⟩
    · simp [Root.stepsOk] at h
    · refine ⟨[], [], .lstat root, ?_, by simp, by simp, by simp [Root.dirs]⟩
      simp [Walk, startWalkFn, withWatches]
  | file =>
    refine ⟨fun _ => ?_, fun h => ?_⟩
    · simp [Walk, startWalkFn, withWatches, Root.dirs]
    · simp [Root.stepsOk] at h
  | dir readable children =>
    cases readable with
    | false =>
      refine ⟨fun h => ?_, fun _ => ?_⟩
      · simp [Root.stepsOk] at h
      · refine ⟨[], root :: children.dirs, .readdir root, ?_, by simp, by simp,
          by simp [Root.dirs]⟩
        simp [Walk, startWalkFn, withWatches]
    | true =>
      by_cases hadd : addOk root = true
      · have hc := walkEntries_start addOk children (withWatches w [root])
        have hstep : Walk (.dir true children) root (startWalkFn addOk) w
            = (let r := walkEntries (startWalkFn addOk) children (withWatches w [root])
               if r.2 = some .SkipDir ∨ r.2 = some .SkipAll then (r.1, none) else r) := by
          simp [Walk, startWalkFn, fsnotify.Watcher.Add, hadd, withWatches]
        rw [hstep]
        refine ⟨fun h => ?_, fun h => ?_⟩
        · have hcok : children.stepsOk addOk = true := by
            simpa [Root.stepsOk, hadd] using h
          rw [hc.1 hcok, withWatches_append]
          simp [Root.dirs]
        · have hcok : children.stepsOk addOk = false := by
            simpa [Root.stepsOk, hadd] using h
          obtain ⟨added, rst, e, he, h1, h2, h3⟩ := hc.2 hcok
          refine ⟨[root] ++ added, rst, e, ?_, h1, h2, ?_⟩
          · rw [he, withWatches_append]
            simp [h1, h2]
          · simp [Root.dirs, ← h3]
      · have hadd2 : addOk root = false := by simpa using hadd
        refine ⟨fun h => ?_, fun _ => ?_⟩
        · simp [Root.stepsOk, hadd2] at h
        · refine ⟨[], root :: children.dirs, .add root, ?_, by simp, by simp,
            by simp [Root.dirs]⟩
          simp [Walk, startWalkFn, fsnotify.Watcher.Add, hadd2, withWatches]

theorem startLoop_spec (fs : String → Root) (addOk : String → Bool) (recursiveWatch : Bool)
    (paths : List String) (w : fsnotify.Watcher) :
    (stepsOk fs addOk recursiveWatch paths = true →
      startLoop fs addOk recursiveWatch paths w
        = (withWatches w (subscriptions fs recursiveWatch paths), none)) ∧
    (stepsOk fs addOk recursiveWatch paths = false →
      ∃ added rest e, startLoop fs addOk recursiveWatch paths w = (withWatches w added, some e) ∧
        added ++ rest = subscriptions fs recursiveWatch paths) := by
  induction paths generalizing w with
  | nil =>
    refine ⟨fun _ => ?_, fun h => ?_⟩
    · simp [startLoop, subscriptions, withWatches]
    · simp [stepsOk] at h
  | cons path rest ih =>
    cases recursiveWatch with
    | true =>
      have hw := Walk_start addOk (fs path) path w
      by_cases hok : (fs path).stepsOk addOk path = true
      · have hwe := hw.1 hok
        have hstep : startLoop fs addOk true (path :: rest) w
            = startLoop fs addOk true rest (withWatches w ((fs path).dirs path)) := by
          simp [startLoop, hwe]
        rw [hstep]
        have hr := ih (withWatches w ((fs path).dirs path))
        refine ⟨fun h => ?_, fun h => ?_⟩
        · have hrok : stepsOk fs addOk true rest = true := by
            simpa [stepsOk, hok] using h
          rw [hr.1 hrok, withWatches_append]
          simp [subscriptions]
        · have hrok : stepsOk fs addOk true rest = false := by
            simpa [stepsOk, hok] using h
          obtain ⟨added, rst, e, he, h3⟩ := hr.2 hrok
          refine ⟨(fs path).dirs path ++ added, rst, e, ?_, ?_⟩
          · rw [he, withWatches_append]
          · simp [subscriptions, ← h3]
      · have hok2 : (fs path).stepsOk addOk path = false := by simpa using hok
        obtain ⟨added, rst, e, he, _, _, h3⟩ := hw.2 hok2
        refine ⟨fun h => ?_, fun _ => ?_⟩
        · simp [stepsOk, hok2] at h
        · refine ⟨added, rst ++ subscriptions fs true rest, .addPathRecursively e, ?_, ?_⟩
          · simp [startLoop, he]
          · simp [subscriptions, ← h3]
    | false =>
      by_cases hadd : addOk path = true
      · have hstep : startLoop fs addOk false (path :: rest) w
            = startLoop fs addOk false rest (withWatches w [path]) := by
          simp [startLoop, fsnotify.Watcher.Add, hadd, withWatches]
        rw [hstep]
        have hr := ih (withWatches w [path])
        refine ⟨fun h => ?_, fun h => ?_⟩
        · have hrok : stepsOk fs addOk false rest = true := by
            simpa [stepsOk, hadd] using h
          rw [hr.1 hrok, withWatches_append]
          simp [subscriptions]
        · have hrok : stepsOk fs addOk false rest = false := by
            simpa [stepsOk, hadd] using h
          obtain ⟨added, rst, e, he, h3⟩ := hr.2 hrok
          refine ⟨[path] ++ added, rst, e, ?_, ?_⟩
          · rw [he, withWatches_append]
          · simp [subscriptions, ← h3]
      · have hadd2 : addOk path = false := by simpa using hadd
        refine ⟨fun h => ?_, fun _ => ?_⟩
        · simp [stepsOk, hadd2] at h
        · refine ⟨[], path :: subscriptions fs false rest, .addPath path, ?_, ?_⟩
          · simp [startLoop, fsnotify.Watcher.Add, hadd2, withWatches]
          · simp [subscriptions]

theorem subscriptions_nonrecursive (fs : String → Root) (paths : List String) :
    subscriptions fs false paths = paths := by
  induction paths with
  | nil => rfl
  | cons p rest ih => simp [subscriptions, ih]

theorem mem_subscriptions_recursive (fs : String → Root) (paths : List String) (p : String) :
    p ∈ subscriptions fs true paths ↔ ∃ root ∈ paths, p ∈ (fs root).dirs root := by
  induction paths with
  | nil => simp [subscriptions]
  | cons q rest ih => simp [subscriptions, ih]

theorem Start_eq (fs : String → Root) (addOk : String → Bool) (fw : FileWatcher) :
    (stepsOk fs addOk fw.recursiveWatch fw.paths = true →
      (Start fs addOk fw).err = none ∧ (Start fs addOk fw).watchStarted = true ∧
      (Start fs addOk fw).fw.watcher
        = withWatches fw.watcher (subscriptions fs fw.recursiveWatch fw.paths)) ∧
    (stepsOk fs addOk fw.recursiveWatch fw.paths = false →
      (Start fs addOk fw).err ≠ none ∧ (Start fs addOk fw).watchStarted = false ∧
      ∃ added rest, (Start fs addOk fw).fw.watcher = withWatches fw.watcher added ∧
        added ++ rest = subscriptions fs fw.recursiveWatch fw.paths) := by
  have h := startLoop_spec fs addOk fw.recursiveWatch fw.paths fw.watcher
  refine ⟨fun hok => ?_, fun hok => ?_⟩
  · have he := h.1 hok
    simp [Start, he]
  · obtain ⟨added, rest, e, he, h3⟩ := h.2 hok
    refine ⟨by simp [Start, he], by simp [Start, he], added, rest, by simp [Start, he], h3⟩

theorem stepsBeforeFailure_append_of_none (a b : List Step) (h : firstFailure a = none) :
    stepsBeforeFailure (a ++ b) = a ++ stepsBeforeFailure b ∧
    firstFailure (a ++ b) = firstFailure b := by
  induction a with
  | nil => simp
  | cons s rest ih =>
    cases hs : s.ok with
    | false => simp [firstFailure, hs] at h
    | true =>
      have h2 : firstFailure rest = none := by simpa [firstFailure, hs] using h
      simp [stepsBeforeFailure, firstFailure, hs, ih h2]

theorem stepsBeforeFailure_append_of_some (a b : List Step) (f : Step)
    (h : firstFailure a = some f) :
    stepsBeforeFailure (a ++ b) = stepsBeforeFailure a ∧ firstFailure (a ++ b) = some f := by
  induction a with
  | nil => simp [firstFailure] at h
  | cons s rest ih =>
    cases hs : s.ok with
    | false =>
      have h2 : s = f := by simpa [firstFailure, hs] using h
      subst h2
      simp [stepsBeforeFailure, firstFailure, hs]
    | true =>
      have h2 : firstFailure rest = some f := by simpa [firstFailure, hs] using h
      simp [stepsBeforeFailure, firstFailure, hs, ih h2]

theorem registered_append (a b : List Step) :
    registered (a ++ b) = registered a ++ registered b := by
  induction a with
  | nil => simp [registered]
  | cons s rest ih =>
    by_cases hk : s.kind = .add
    · simp [registered, hk, ih]
    · simp [registered, hk, ih]

theorem stepsBeforeFailure_of_none (a : List Step) (h : firstFailure a = none) :
    stepsBeforeFailure a = a := by
  have := (stepsBeforeFailure_append_of_none a [] h).1
  simpa [stepsBeforeFailure] using this

theorem firstFailure_not_ok (l : List Step) (f : Step) (h : firstFailure l = some f) :
    f.ok = false ∧ f ∈ l ∧ ∃ rest, l = stepsBeforeFailure l ++ f :: rest := by
  induction l with
  | nil => simp [firstFailure] at h
  | cons s rest ih =>
    cases hs : s.ok with
    | false =>
      have h2 : s = f := by simpa [firstFailure, hs] using h
      subst h2
      exact ⟨hs, List.mem_cons_self _ _, rest, by simp [stepsBeforeFailure, hs]⟩
    | true =>
      have h2 : firstFailure rest = some f := by simpa [firstFailure, hs] using h
      obtain ⟨h3, h4, r2, h5⟩ := ih h2
      refine ⟨h3, List.mem_cons_of_mem _ h4, r2, ?_⟩
      simp only [stepsBeforeFailure, hs, if_true, List.cons_append]
      rw [← h5]

theorem stepsBeforeFailure_all_ok (l : List Step) : ∀ s ∈ stepsBeforeFailure l, s.ok = true := by
  induction l with
  | nil => simp [stepsBeforeFailure]
  | cons s rest ih =>
    cases hs : s.ok with
    | false => simp [stepsBeforeFailure, hs]
    | true =>
      intro t ht
      simp only [stepsBeforeFailure, hs, if_true, List.mem_cons] at ht
      rcases ht with ht | ht
      · rw [ht]; exact hs
      · exact ih t ht

theorem walkErr_not_sentinel (s : Step) : s.walkErr ≠ .SkipDir ∧ s.walkErr ≠ .SkipAll := by
  obtain ⟨k, p, o⟩ := s
  cases k <;> simp [Step.walkErr]

/-- What a walk does to the watcher, read off the list of its steps: the
registrations before the first failing step are made, and the error is the
one of that step. -/
def StepsOutcome (l : List Step) (w : fsnotify.Watcher)
    (r : fsnotify.Watcher × Option WalkErr) : Prop :=
  r = (withWatches w (registered (stepsBeforeFailure l)), (firstFailure l).map Step.walkErr)

theorem walkEntries_steps (addOk : String → Bool) (es : Entries) (w : fsnotify.Watcher) :
    StepsOutcome (es.steps addOk) w (walkEntries (startWalkFn addOk) es w) := by
  unfold StepsOutcome
  induction es generalizing w with
  | nil => simp [walkEntries, Entries.steps, stepsBeforeFailure, firstFailure, registered, withWatches]
  | noStat path rest _ =>
    simp [walkEntries, startWalkFn, Entries.steps, stepsBeforeFailure, firstFailure, registered,
      withWatches, Step.walkErr]
  | file path rest ih =>
    have hstep : walkEntries (startWalkFn addOk) (.file path rest) w
        = walkEntries (startWalkFn addOk) rest w := by
      simp [walkEntries, startWalkFn]
    rw [hstep, ih w]
    simp [Entries.steps, stepsBeforeFailure, firstFailure, registered]
  | dir path readable children rest ihc ihr =>
    cases readable with
    | false =>
      simp [walkEntries, startWalkFn, Entries.steps, stepsBeforeFailure, firstFailure, registered,
        withWatches, Step.walkErr]
    | true =>
      cases hadd : addOk path with
      | false =>
        simp [walkEntries, startWalkFn, fsnotify.Watcher.Add, hadd, Entries.steps,
          stepsBeforeFailure, firstFailure, registered, withWatches, Step.walkErr]
      | true =>
        have hc := ihc (withWatches w [path])
        rw [withWatches_append] at hc
        cases hf : firstFailure (children.steps addOk) with
        | none =>
          rw [hf] at hc
          have hstep : walkEntries (startWalkFn addOk) (.dir path true children rest) w
              = walkEntries (startWalkFn addOk) rest
                  (withWatches w ([path] ++ registered (stepsBeforeFailure (children.steps addOk)))) := by
            simp [walkEntries, startWalkFn, fsnotify.Watcher.Add, hadd]
            simp [withWatches] at hc
            simp [hc, withWatches]
          rw [hstep, ihr, withWatches_append]
          have ha := stepsBeforeFailure_append_of_none (children.steps addOk) (rest.steps addOk) hf
          have hb := stepsBeforeFailure_of_none (children.steps addOk) hf
          simp [Entries.steps, stepsBeforeFailure, firstFailure, registered, hadd, ha.1, ha.2,
            registered_append, hb]
        | some f =>
          rw [hf] at hc
          have hns := walkErr_not_sentinel f
          have ha := stepsBeforeFailure_append_of_some (children.steps addOk) (rest.steps addOk) f hf
          have hstep : walkEntries (startWalkFn addOk) (.dir path true children rest) w
              = (withWatches w ([path] ++ registered (stepsBeforeFailure (children.steps addOk))),
                  some f.walkErr) := by
            simp [walkEntries, startWalkFn, fsnotify.Watcher.Add, hadd]
            simp [withWatches] at hc
            simp [hc, withWatches, hns.1]
          rw [hstep]
          simp [Entries.steps, stepsBeforeFailure, firstFailure, registered, hadd, ha.1, ha.2]

theorem Walk_steps (addOk : String → Bool) (rt : Root) (root : String) (w : fsnotify.Watcher) :
    StepsOutcome (rt.steps addOk root) w (Walk rt root (startWalkFn addOk) w) := by
  unfold StepsOutcome
  cases rt with
  | noStat =>
    simp [Walk, startWalkFn, Root.steps, stepsBeforeFailure, firstFailure, registered,
      withWatches, Step.walkErr]
  | file =>
    simp [Walk, startWalkFn, Root.steps, stepsBeforeFailure, firstFailure, registered, withWatches]
  | dir readable children =>
    cases readable with
    | false =>
      simp [Walk, startWalkFn, Root.steps, stepsBeforeFailure, firstFailure, registered,
        withWatches, Step.walkErr]
    | true =>
      cases hadd : addOk root with
      | false =>
        simp [Walk, startWalkFn, fsnotify.Watcher.Add, hadd, Root.steps, stepsBeforeFailure,
          firstFailure, registered, withWatches, Step.walkErr]
      | true =>
        have hc := walkEntries_steps addOk children (withWatches w [root])
        unfold StepsOutcome at hc
        rw [withWatches_append] at hc
        have hstep : Walk (.dir true children) root (startWalkFn addOk) w
            = (let r := walkEntries (startWalkFn addOk) children (withWatches w [root])
               if r.2 = some .SkipDir ∨ r.2 = some .SkipAll then (r.1, none) else r) := by
          simp [Walk, startWalkFn, fsnotify.Watcher.Add, hadd, withWatches]
        rw [hstep, hc]
        cases hf : firstFailure (children.steps addOk) with
        | none =>
          simp [Root.steps, stepsBeforeFailure, firstFailure, registered, hadd, hf]
        | some f =>
          have hns := walkErr_not_sentinel f
          simp [Root.steps, stepsBeforeFailure, firstFailure, registered, hadd, hf, hns.1, hns.2]

theorem startLoop_steps (fs : String → Root) (addOk : String → Bool) (recursiveWatch : Bool)
    (paths : List String) (w : fsnotify.Watcher) :
    startLoop fs addOk recursiveWatch paths w =
      (withWatches w (registered (stepsBeforeFailure (startSteps fs addOk recursiveWatch paths))),
       (firstFailure (startSteps fs addOk recursiveWatch paths)).map
         (Step.startErr recursiveWatch)) := by
  induction paths generalizing w with
  | nil => simp [startLoop, startSteps, stepsBeforeFailure, firstFailure, registered, withWatches]
  | cons path rest ih =>
    cases recursiveWatch with
    | true =>
      have hw := Walk_steps addOk (fs path) path w
      unfold StepsOutcome at hw
      cases hf : firstFailure ((fs path).steps addOk path) with
      | none =>
        rw [hf] at hw
        have ha := stepsBeforeFailure_append_of_none ((fs path).steps addOk path)
          (startSteps fs addOk true rest) hf
        have hb := stepsBeforeFailure_of_none ((fs path).steps addOk path) hf
        have hstep : startLoop fs addOk true (path :: rest) w
            = startLoop fs addOk true rest
                (withWatches w (registered (stepsBeforeFailure ((fs path).steps addOk path)))) := by
          simp [startLoop, hw]
        rw [hstep, ih, withWatches_append]
        simp [startSteps, ha.1, ha.2, registered_append, hb]
      | some f =>
        rw [hf] at hw
        have ha := stepsBeforeFailure_append_of_some ((fs path).steps addOk path)
          (startSteps fs addOk true rest) f hf
        simp [startLoop, hw, startSteps, ha.1, ha.2, Step.startErr]
    | false =>
      cases hadd : addOk path with
      | true =>
        have hstep : startLoop fs addOk false (path :: rest) w
            = startLoop fs addOk false rest (withWatches w [path]) := by
          simp [startLoop, fsnotify.Watcher.Add, hadd, withWatches]
        rw [hstep, ih, withWatches_append]
        simp [startSteps, stepsBeforeFailure, firstFailure, registered, hadd]
      | false =>
        simp [startLoop, fsnotify.Watcher.Add, hadd, startSteps, stepsBeforeFailure,
          firstFailure, registered, withWatches, Step.startErr]

theorem Start_steps (fs : String → Root) (addOk : String → Bool) (fw : FileWatcher) :
    (Start fs addOk fw).fw.watcher =
      withWatches fw.watcher
        (registered (stepsBeforeFailure (startSteps fs addOk fw.recursiveWatch fw.paths))) ∧
    (Start fs addOk fw).err =
      (firstFailure (startSteps fs addOk fw.recursiveWatch fw.paths)).map
        (Step.startErr fw.recursiveWatch) := by
  have h := startLoop_steps fs addOk fw.recursiveWatch fw.paths fw.watcher
  cases hf : firstFailure (startSteps fs addOk fw.recursiveWatch fw.paths) with
  | none =>
    rw [hf] at h
    simp [Start, h]
  | some f =>
    rw [hf] at h
    simp [Start, h]

/-- The watcher of the example: the root `root`, in recursive or
non-recursive mode, newly created. -/
def exampleWatcher (recursiveWatch : Bool) : FileWatcher :=
  { watcher := fsnotify.NewWatcher
    paths := ["root"], events := ["create"], execCommand := "true", execArgs := []
    environment := none, ignorePatterns := [], recursiveWatch := recursiveWatch
    stopChClosed := false }

/-- C4. When every traversal step and every registration succeeds, `Start`
returns no error and the paths it registers are, in order, exactly the
subscriptions of the specification: in non-recursive mode the configured
roots; in recursive mode the directories found by walking each root (the
root itself when it is a directory, and every directory below it), and
nothing else, so no regular file. For the tree `root/{a/, a/b/, c}` these
are `root, root/a, root/a/b` in recursive mode and `root` in non-recursive
mode. -/
theorem Start_registers_exactly_the_subscriptions (fs : String → Root) (addOk : String → Bool)
    (fw : FileWatcher) (hok : stepsOk fs addOk fw.recursiveWatch fw.paths = true) :
    (Start fs addOk fw).err = none ∧
    (Start fs addOk fw).fw.watcher.watches
      = fw.watcher.watches ++ subscriptions fs fw.recursiveWatch fw.paths ∧
    (fw.recursiveWatch = false → subscriptions fs fw.recursiveWatch fw.paths = fw.paths) ∧
    (fw.recursiveWatch = true → ∀ p, p ∈ subscriptions fs fw.recursiveWatch fw.paths ↔
      ∃ root ∈ fw.paths, p ∈ (fs root).dirs root) ∧
    (Start exampleTree (fun _ => true) (exampleWatcher true)).fw.watcher.watches
      = ["root", "root/a", "root/a/b"] ∧
    (Start exampleTree (fun _ => true) (exampleWatcher false)).fw.watcher.watches = ["root"] := by
  obtain ⟨h1, _, h3⟩ := (Start_eq fs addOk fw).1 hok
  refine ⟨h1, by rw [h3]; rfl, ?_, ?_, by decide, by decide⟩
  · intro hr
    rw [hr]
    exact subscriptions_nonrecursive fs fw.paths
  · intro hr p
    rw [hr]
    exact mem_subscriptions_recursive fs fw.paths p

/-- C4 at the tree of the specification, in recursive mode: all steps
succeed, and the registered paths are the three directories. -/
theorem Start_registers_example_tree :
    stepsOk exampleTree (fun _ => true) true ["root"] = true ∧
    (Start exampleTree (fun _ => true) (exampleWatcher true)).err = none ∧
    (Start exampleTree (fun _ => true) (exampleWatcher true)).fw.watcher.watches
      = [] ++ ["root", "root/a", "root/a/b"] :=
  ⟨by decide,
   (Start_registers_exactly_the_subscriptions exampleTree (fun _ => true) (exampleWatcher true)
      (by decide)).1,
   (Start_registers_exactly_the_subscriptions exampleTree (fun _ => true) (exampleWatcher true)
      (by decide)).2.1⟩

/-- C5. `Start` returns an error exactly when some traversal or
registration step fails, and the goroutine of the watch loop is started
exactly when `Start` returns no error. -/
theorem Start_error_iff_some_step_fails (fs : String → Root) (addOk : String → Bool)
    (fw : FileWatcher) :
    ((Start fs addOk fw).err ≠ none ↔ stepsOk fs addOk fw.recursiveWatch fw.paths = false) ∧
    ((Start fs addOk fw).watchStarted = true ↔ (Start fs addOk fw).err = none) := by
  have h := Start_eq fs addOk fw
  by_cases hok : stepsOk fs addOk fw.recursiveWatch fw.paths = true
  · obtain ⟨h1, h2, _⟩ := h.1 hok
    simp [h1, h2, hok]
  · have hok2 : stepsOk fs addOk fw.recursiveWatch fw.paths = false := by simpa using hok
    obtain ⟨h1, h2, _⟩ := h.2 hok2
    simp [h1, h2, hok2]

/-- A new watcher on the roots `/a` and `/missing`, non-recursive. -/
def twoRootWatcher : FileWatcher :=
  { watcher := fsnotify.NewWatcher
    paths := ["/a", "/missing"], events := ["create"], execCommand := "true", execArgs := []
    environment := none, ignorePatterns := [], recursiveWatch := false
    stopChClosed := false }

/-- C6 (counterexample). With the roots `/a` and `/missing`, where the
watch on `/a` is accepted and the one on `/missing` is refused, `Start`
returns the error for `/missing` and `/a` is left subscribed, although
nothing was subscribed before the call. -/
theorem Start_failure_leaves_a_subscription :
    twoRootWatcher.watcher.watches = [] ∧
    (Start (fun _ => .noStat) (fun p => p == "/a") twoRootWatcher).err
      = some (.addPath "/missing") ∧
    (Start (fun _ => .noStat) (fun p => p == "/a") twoRootWatcher).fw.watcher.watches = ["/a"] ∧
    (Start (fun _ => .noStat) (fun p => p == "/a") twoRootWatcher).fw.watcher.watches
      ≠ twoRootWatcher.watcher.watches := by
  decide

theorem Start_error_iff_started (fs : String → Root) (addOk : String → Bool) (fw : FileWatcher) :
    (Start fs addOk fw).watchStarted = true ↔ (Start fs addOk fw).err = none := by
  cases h : (startLoop fs addOk fw.recursiveWatch fw.paths fw.watcher).2 <;> simp [Start, h]

theorem Start_keeps_closed (fs : String → Root) (addOk : String → Bool) (fw : FileWatcher) :
    (Start fs addOk fw).fw.watcher.closed = fw.watcher.closed ∧
    (Start fs addOk fw).fw.stopChClosed = fw.stopChClosed := by
  have hs := Start_eq fs addOk fw
  constructor
  · by_cases hok : stepsOk fs addOk fw.recursiveWatch fw.paths = true
    · rw [(hs.1 hok).2.2]; rfl
    · have hok2 : stepsOk fs addOk fw.recursiveWatch fw.paths = false := by simpa using hok
      obtain ⟨_, _, added, rest, hw, _⟩ := hs.2 hok2
      rw [hw]; rfl
  · cases h : (startLoop fs addOk fw.recursiveWatch fw.paths fw.watcher).2 <;> simp [Start, h]

/-- The watcher `StartTask` creates from a task configuration. -/
def watcherOf (tc : TaskConfig) : FileWatcher :=
  { watcher := fsnotify.NewWatcher, paths := tc.Paths, events := tc.Events,
    execCommand := tc.ExecCommand, execArgs := tc.ExecArgs,
    environment := tc.Environment, ignorePatterns := tc.IgnorePatterns,
    recursiveWatch := tc.RecursiveWatch, stopChClosed := false }

theorem StartTask_valid (fs : String → Root) (addOk : String → Bool) (d : Driver) (id : String)
    (tc : TaskConfig) (hv : validateConfig tc = none) :
    StartTask true fs addOk d id (some tc) =
      (match (Start fs addOk (watcherOf tc)).err with
       | some e =>
         { driver := d, err := some (.startWatcher e),
           created := some (Start fs addOk (watcherOf tc)).fw,
           watchStarted := (Start fs addOk (watcherOf tc)).watchStarted }
       | none =>
         { driver := ⟨d.tasks.insert id ⟨tc, some (Start fs addOk (watcherOf tc)).fw⟩⟩,
           err := none, created := some (Start fs addOk (watcherOf tc)).fw,
           watchStarted := (Start fs addOk (watcherOf tc)).watchStarted }) := by
  simp only [StartTask, hv, NewFileWatcher]
  rfl

theorem StartTask_start_failure (newWatcherOk : Bool) (fs : String → Root)
    (addOk : String → Bool) (d : Driver) (id : String) (decoded : Option TaskConfig)
    (e : StartErr)
    (h : (StartTask newWatcherOk fs addOk d id decoded).err = some (.startWatcher e)) :
    (StartTask newWatcherOk fs addOk d id decoded).driver = d ∧
    (StartTask newWatcherOk fs addOk d id decoded).watchStarted = false ∧
    ∃ tc fw1, decoded = some tc ∧
      (StartTask newWatcherOk fs addOk d id decoded).created = some fw1 ∧
      fw1 = (Start fs addOk (watcherOf tc)).fw ∧
      fw1.watcher.closed = false ∧ fw1.stopChClosed = false := by
  cases decoded with
  | none => simp [StartTask] at h
  | some tc =>
    cases hv : validateConfig tc with
    | some ce => simp [StartTask, hv] at h
    | none =>
      cases newWatcherOk with
      | false => simp [StartTask, hv, NewFileWatcher] at h
      | true =>
        rw [StartTask_valid fs addOk d id tc hv] at h ⊢
        have hc := Start_keeps_closed fs addOk (watcherOf tc)
        have h5 := (Start_error_iff_started fs addOk (watcherOf tc))
        cases hre : (Start fs addOk (watcherOf tc)).err with
        | none => simp [hre] at h
        | some e2 =>
          simp only [hre]
          refine ⟨trivial, ?_, tc, _, rfl, rfl, rfl, hc.1, hc.2⟩
          cases hws : (Start fs addOk (watcherOf tc)).watchStarted with
          | false => rfl
          | true => rw [h5.1 hws] at hre; cases hre

/-- C6 (amended). `Start` is not atomic. When some registration or
traversal step fails, `Start` stops at the first failing step and returns
the error of that step, which names its path; it does not start the watch
loop and undoes nothing. The watches after the failed call are the watches
before it followed by exactly the paths whose registration succeeded before
the failing step, so each of them is still subscribed; these are an initial
part, in registration order, of what a successful start would register, and
the watcher is not closed. `StartTask` then returns the error, keeps no
handle and leaves that watcher unclosed. -/
theorem Start_failure_keeps_earlier_registrations (fs : String → Root) (addOk : String → Bool)
    (fw : FileWatcher) (herr : (Start fs addOk fw).err ≠ none) :
    (∃ failing : Step,
      firstFailure (startSteps fs addOk fw.recursiveWatch fw.paths) = some failing ∧
      failing.ok = false ∧
      (∃ later, startSteps fs addOk fw.recursiveWatch fw.paths =
        stepsBeforeFailure (startSteps fs addOk fw.recursiveWatch fw.paths) ++ failing :: later) ∧
      (∀ s ∈ stepsBeforeFailure (startSteps fs addOk fw.recursiveWatch fw.paths), s.ok = true) ∧
      (Start fs addOk fw).err = some (failing.startErr fw.recursiveWatch)) ∧
    (Start fs addOk fw).fw.watcher.watches =
      fw.watcher.watches ++
        registered (stepsBeforeFailure (startSteps fs addOk fw.recursiveWatch fw.paths)) ∧
    (∀ p ∈ registered (stepsBeforeFailure (startSteps fs addOk fw.recursiveWatch fw.paths)),
      p ∈ (Start fs addOk fw).fw.watcher.watches) ∧
    (∀ p ∈ fw.watcher.watches, p ∈ (Start fs addOk fw).fw.watcher.watches) ∧
    (Start fs addOk fw).watchStarted = false ∧
    (∃ added rest,
      (Start fs addOk fw).fw.watcher.watches = fw.watcher.watches ++ added ∧
      added ++ rest = subscriptions fs fw.recursiveWatch fw.paths) ∧
    (Start fs addOk fw).fw.watcher.closed = fw.watcher.closed ∧
    (∀ (d : Driver) (id : String) (tc : TaskConfig) (e : StartErr),
      (StartTask true fs addOk d id (some tc)).err = some (.startWatcher e) →
      (StartTask true fs addOk d id (some tc)).driver = d ∧
      (StartTask true fs addOk d id (some tc)).watchStarted = false ∧
      ∃ fw1, (StartTask true fs addOk d id (some tc)).created = some fw1 ∧
        fw1 = (Start fs addOk (watcherOf tc)).fw ∧ fw1.watcher.closed = false) := by
  have hst := Start_steps fs addOk fw
  have hwatches : (Start fs addOk fw).fw.watcher.watches =
      fw.watcher.watches ++
        registered (stepsBeforeFailure (startSteps fs addOk fw.recursiveWatch fw.paths)) := by
    rw [hst.1]; rfl
  have hs := Start_eq fs addOk fw
  by_cases hok : stepsOk fs addOk fw.recursiveWatch fw.paths = true
  · exact absurd (hs.1 hok).1 herr
  · have hok2 : stepsOk fs addOk fw.recursiveWatch fw.paths = false := by simpa using hok
    obtain ⟨_, h2, added, rest, hw, h3⟩ := hs.2 hok2
    refine ⟨?_, hwatches, ?_, ?_, h2, ⟨added, rest, by rw [hw]; rfl, h3⟩,
      (Start_keeps_closed fs addOk fw).1, ?_⟩
    · cases hf : firstFailure (startSteps fs addOk fw.recursiveWatch fw.paths) with
      | none =>
        rw [hst.2, hf] at herr
        exact absurd rfl herr
      | some failing =>
        obtain ⟨h4, _, h6⟩ := firstFailure_not_ok _ failing hf
        refine ⟨failing, rfl, h4, h6, stepsBeforeFailure_all_ok _, ?_⟩
        rw [hst.2, hf]
        rfl
    · intro p hp
      rw [hwatches]
      exact List.mem_append_right _ hp
    · intro p hp
      rw [hwatches]
      exact List.mem_append_left _ hp
    · intro d id tc e he
      obtain ⟨h4, h5, tc2, fw1, htc, h6, h7, h8, _⟩ :=
        StartTask_start_failure true fs addOk d id (some tc) e he
      injection htc with htc
      subst htc
      exact ⟨h4, h5, fw1, h6, h7, h8⟩

/-- C6 (amended) at the roots `/a` and `/missing`: the start fails at the
registration of `/missing` and returns the error naming it, the loop is not
started, and `/a`, registered before the failing step, stays subscribed. -/
theorem Start_failure_keeps_earlier_registrations_witness :
    (Start (fun _ => .noStat) (fun p => p == "/a") twoRootWatcher).err ≠ none ∧
    firstFailure (startSteps (fun _ => .noStat) (fun p => p == "/a") false ["/a", "/missing"])
      = some ⟨.add, "/missing", false⟩ ∧
    registered (stepsBeforeFailure
      (startSteps (fun _ => .noStat) (fun p => p == "/a") false ["/a", "/missing"])) = ["/a"] ∧
    (Start (fun _ => .noStat) (fun p => p == "/a") twoRootWatcher).err
      = some (.addPath "/missing") ∧
    (Start (fun _ => .noStat) (fun p => p == "/a") twoRootWatcher).fw.watcher.watches
      = [] ++ ["/a"] ∧
    (Start (fun _ => .noStat) (fun p => p == "/a") twoRootWatcher).watchStarted = false ∧
    (Start (fun _ => .noStat) (fun p => p == "/a") twoRootWatcher).fw.watcher.closed = false :=
  have h := Start_failure_keeps_earlier_registrations (fun _ => .noStat) (fun p => p == "/a")
    twoRootWatcher (by decide)
  ⟨by decide, by decide, by decide, by decide, h.2.1, h.2.2.2.2.1, h.2.2.2.2.2.2.1⟩

/-! ### Configuration validation -/

theorem validEvents_lookup (event : String) :
    (validEvents.lookup event).getD false = true ↔
      (event = "create" ∨ event = "modify" ∨ event = "remove" ∨ event = "rename" ∨
        event = "chmod") := by
  by_cases h1 : event = "create"
  · subst h1; simp [validEvents, List.lookup]
  by_cases h2 : event = "modify"
  · subst h2; simp [validEvents, List.lookup]
  by_cases h3 : event = "remove"
  · subst h3; simp [validEvents, List.lookup]
  by_cases h4 : event = "rename"
  · subst h4; simp [validEvents, List.lookup]
  by_cases h5 : event = "chmod"
  · subst h5; simp [validEvents, List.lookup]
  have b1 : (event == "create") = false := by simpa using h1
  have b2 : (event == "modify") = false := by simpa using h2
  have b3 : (event == "remove") = false := by simpa using h3
  have b4 : (event == "rename") = false := by simpa using h4
  have b5 : (event == "chmod") = false := by simpa using h5
  simp [validEvents, List.lookup, b1, b2, b3, b4, b5, h1, h2, h3, h4, h5]

theorem validateEvents_eq_none (events : List String) :
    validateEvents events = none ↔
      ∀ event ∈ events, (event = "create" ∨ event = "modify" ∨ event = "remove" ∨
        event = "rename" ∨ event = "chmod") := by
  induction events with
  | nil => simp [validateEvents]
  | cons event rest ih =>
    by_cases h : (validEvents.lookup event).getD false = true
    · have hv := (validEvents_lookup event).1 h
      simp only [validateEvents, h, Bool.not_true, Bool.false_eq_true, if_false, ih,
        List.mem_cons, forall_eq_or_imp, hv, true_and]
    · have hv : ¬ (event = "create" ∨ event = "modify" ∨ event = "remove" ∨ event = "rename" ∨
          event = "chmod") := fun c => h ((validEvents_lookup event).2 c)
      have hf : (validEvents.lookup event).getD false = false := by simpa using h
      simp only [validateEvents, hf, Bool.not_false, if_true, List.mem_cons, forall_eq_or_imp, hv,
        false_and]
      simp

theorem validateConfig_eq_none (tc : TaskConfig) :
    validateConfig tc = none ↔ (tc.Paths ≠ [] ∧ tc.Events ≠ []) := by
  unfold validateConfig
  by_cases h1 : tc.Paths = []
  · simp [h1]
  · by_cases h2 : tc.Events = []
    · simp [h1, h2]
    · simp [h1, h2]

/-- A task configuration with a path and an event entry and nothing else
valid: an unknown event string, no command, negative numeric settings. -/
def invalidConfig : TaskConfig :=
  { Paths := ["/tmp/watched"], Events := ["bogus"], ExecCommand := "", ExecArgs := [],
    Environment := none, RecursiveWatch := false, IgnorePatterns := [],
    RetryInterval := -1, MaxRetries := -1, Timeout := -1 }

/-- C7 (the code at the failing input). The validation `StartTask` runs,
`Driver.validateConfig`, accepts every configuration whose path list and
event list are not empty. For `invalidConfig` (unknown event string, empty
command, negative settings) `TaskConfig.Validate` returns an error but
`validateConfig` returns none, and `StartTask` goes on to create and start
a watcher and records the task. -/
theorem validateConfig_accepts_invalid_config :
    (∀ tc : TaskConfig, validateConfig tc = none ↔ (tc.Paths ≠ [] ∧ tc.Events ≠ []))
    ∧ invalidConfig.Validate = some .noExecCommand
    ∧ validateConfig invalidConfig = none
    ∧ (StartTask true (fun _ => .dir true .nil) (fun _ => true) { tasks := ∅ } "task1"
        (some invalidConfig)).err = none
    ∧ (StartTask true (fun _ => .dir true .nil) (fun _ => true) { tasks := ∅ } "task1"
        (some invalidConfig)).watchStarted = true
    ∧ ((StartTask true (fun _ => .dir true .nil) (fun _ => true) { tasks := ∅ } "task1"
        (some invalidConfig)).created.map (fun fw => (fw.events, fw.execCommand)))
        = some (["bogus"], "") := by
  refine ⟨validateConfig_eq_none, by decide, by decide, by decide, by decide, by decide⟩

/-- C8. `Validate` returns no error exactly when the path list, the event
list and the command are not empty, every event is one of create, modify,
remove, rename, chmod, and the timeout, the retry interval and the retry
count are not negative. A configuration with no path is rejected whatever
its other fields; so is the one with events `create` and command `x`. -/
theorem Validate_eq_none_iff (tc : TaskConfig) :
    (tc.Validate = none ↔
      (tc.Paths ≠ [] ∧ tc.Events ≠ [] ∧ tc.ExecCommand ≠ "" ∧
        (∀ event ∈ tc.Events, (event = "create" ∨ event = "modify" ∨ event = "remove" ∨
          event = "rename" ∨ event = "chmod")) ∧
        0 ≤ tc.Timeout ∧ 0 ≤ tc.RetryInterval ∧ 0 ≤ tc.MaxRetries))
    ∧ (tc.Paths = [] → tc.Validate = some .noPath)
    ∧ ({ tc with Paths := [], Events := ["create"], ExecCommand := "x" } : TaskConfig).Validate
        = some .noPath := by
  refine ⟨?_, ?_, by simp [TaskConfig.Validate]⟩
  · unfold TaskConfig.Validate
    by_cases h1 : tc.Paths = []
    · simp [h1]
    by_cases h2 : tc.Events = []
    · simp [h1, h2]
    by_cases h3 : tc.ExecCommand = ""
    · simp [h1, h2, h3]
    cases hv : validateEvents tc.Events with
    | some e =>
      have hne : ¬ ∀ event ∈ tc.Events, (event = "create" ∨ event = "modify" ∨
          event = "remove" ∨ event = "rename" ∨ event = "chmod") := by
        intro hall
        rw [(validateEvents_eq_none tc.Events).2 hall] at hv
        cases hv
      simp [h1, h2, h3, hne]
    | none =>
      have hall := (validateEvents_eq_none tc.Events).1 hv
      by_cases h4 : tc.Timeout < 0
      · simp [h1, h2, h3, h4]
      by_cases h5 : tc.RetryInterval < 0
      · simp [h1, h2, h3, h4, h5]
      by_cases h6 : tc.MaxRetries < 0
      · simp [h1, h2, h3, h4, h5, h6]
      have h4b : 0 ≤ tc.Timeout := not_lt.1 h4
      have h5b : 0 ≤ tc.RetryInterval := not_lt.1 h5
      have h6b : 0 ≤ tc.MaxRetries := not_lt.1 h6
      simp [h1, h2, h3, h4, h5, h6, h4b, h5b, h6b]
      exact hall
  · intro h
    simp [TaskConfig.Validate, h]

/-! ### Ignore patterns and validation -/

theorem goMatch_error_not_matched (pattern name : String)
    (h : (goMatch pattern name).2 ≠ none) : (goMatch pattern name).1 = false := by
  unfold goMatch at h ⊢
  cases hm : filepath.Match pattern name with
  | ok b => simp [hm] at h
  | error e => simp [hm]

theorem ignoreLoop_filter (globMatch : GlobMatch) (base : String) (keep : String → Bool)
    (pats : List String) (hkeep : ∀ p ∈ pats, keep p = false → (globMatch p base).1 = false) :
    ignoreLoop globMatch base (pats.filter keep) = ignoreLoop globMatch base pats := by
  induction pats with
  | nil => rfl
  | cons p rest ih =>
    have ih2 := ih (fun q hq => hkeep q (List.mem_cons_of_mem p hq))
    by_cases hk : keep p = true
    · simp [List.filter, hk, ignoreLoop, ih2]
    · have hk2 : keep p = false := by simpa using hk
      have hm := hkeep p (List.mem_cons_self p rest) hk2
      simp [List.filter, hk2, ignoreLoop, ih2, hm]

/-- The patterns of a list for which the matcher reports no error on the
given basename. -/
def errorFreePatterns (globMatch : GlobMatch) (base : String) (pats : List String) : List String :=
  pats.filter (fun p => (globMatch p base).2.isNone)

/-- The scenario configuration with the ignore pattern `[`, an unterminated
character class. -/
def badGlobConfig : TaskConfig :=
  { Paths := ["/tmp/watched"], Events := ["create"], ExecCommand := "true", ExecArgs := [],
    Environment := none, RecursiveWatch := false, IgnorePatterns := ["["],
    RetryInterval := 30, MaxRetries := 3, Timeout := 60 }

/-- C9 (counterexample). The pattern `[` is malformed: `filepath.Match`
reports `ErrBadPattern` for it on every name. A configuration with this
ignore pattern passes `Validate` and `validateConfig`, `StartTask` starts a
watcher that holds the pattern, and `shouldHandle` is then evaluated with
it (and accepts the event). -/
theorem malformed_glob_passes_validation :
    (∀ name : String, goMatch "[" name = (false, some .ErrBadPattern))
    ∧ "[" ∈ badGlobConfig.IgnorePatterns
    ∧ badGlobConfig.Validate = none
    ∧ validateConfig badGlobConfig = none
    ∧ (StartTask true (fun _ => .dir true .nil) (fun _ => true) { tasks := ∅ } "task1"
        (some badGlobConfig)).err = none
    ∧ ((StartTask true (fun _ => .dir true .nil) (fun _ => true) { tasks := ∅ } "task1"
        (some badGlobConfig)).created.map
          (fun fw => (fw.ignorePatterns,
            shouldHandle goMatch fw ⟨"/tmp/watched/[", fsnotify.Create⟩)))
        = some (["["], true) := by
  refine ⟨fun name => rfl, by decide, by decide, by decide, by decide, by decide⟩

/-- C9 (amended). Configuration validation does not look at the ignore
patterns: `Validate` and `validateConfig` give the same result whatever the
list of ignore patterns is, so a malformed glob is accepted. At match time
`shouldHandle` drops the error of the matcher: with a matcher that, like
`filepath.Match`, reports no match together with an error, the patterns for
which matching reports an error have no effect on the decision. -/
theorem validation_ignores_ignore_patterns (globMatch : GlobMatch)
    (hbad : ∀ p n, (globMatch p n).2 ≠ none → (globMatch p n).1 = false)
    (tc : TaskConfig) (pats : List String) (fw : FileWatcher) (event : fsnotify.Event) :
    ({ tc with IgnorePatterns := pats } : TaskConfig).Validate = tc.Validate
    ∧ validateConfig { tc with IgnorePatterns := pats } = validateConfig tc
    ∧ shouldHandle globMatch fw event =
        shouldHandle globMatch
          { fw with
            ignorePatterns := errorFreePatterns globMatch (filepath.Base event.Name)
              fw.ignorePatterns } event := by
  refine ⟨rfl, rfl, ?_⟩
  unfold shouldHandle errorFreePatterns
  simp only []
  rw [ignoreLoop_filter globMatch (filepath.Base event.Name)
    (fun p => (globMatch p (filepath.Base event.Name)).2.isNone) fw.ignorePatterns]
  intro p _ hp
  apply hbad
  intro hnone
  rw [hnone] at hp
  simp at hp

/-- C9 (amended) with `filepath.Match` as the matcher, at the configuration
with the pattern `[`: validation gives the same result as without the
pattern, and the watcher decides as if the pattern were not there. -/
theorem validation_ignores_ignore_patterns_witness :
    ({ scenarioConfig with IgnorePatterns := ["["] } : TaskConfig).Validate
      = scenarioConfig.Validate
    ∧ validateConfig { scenarioConfig with IgnorePatterns := ["["] }
      = validateConfig scenarioConfig
    ∧ shouldHandle goMatch (watcherOf badGlobConfig) ⟨"/tmp/watched/x", fsnotify.Create⟩ =
        shouldHandle goMatch
          { watcherOf badGlobConfig with
            ignorePatterns := errorFreePatterns goMatch
              (filepath.Base (⟨"/tmp/watched/x", fsnotify.Create⟩ : fsnotify.Event).Name)
              (watcherOf badGlobConfig).ignorePatterns }
          ⟨"/tmp/watched/x", fsnotify.Create⟩ :=
  validation_ignores_ignore_patterns goMatch goMatch_error_not_matched scenarioConfig ["["]
    (watcherOf badGlobConfig) ⟨"/tmp/watched/x", fsnotify.Create⟩

/-! ### Merge -/

theorem lookup_mergeEnv (k : String) (l : List (Sigma (fun (_ : String) => String)))
    (hl : l.NodupKeys) (result : AList (fun (_ : String) => String)) :
    (mergeEnv result l).lookup k =
      (match List.dlookup k l with
       | some v => some v
       | none => result.lookup k) := by
  induction l generalizing result with
  | nil => simp [mergeEnv]
  | cons kv rest ih =>
    obtain ⟨k1, v1⟩ := kv
    have hrest : rest.NodupKeys := (List.nodupKeys_cons.1 hl).2
    have hnot : k1 ∉ rest.keys := (List.nodupKeys_cons.1 hl).1
    rw [mergeEnv, ih hrest]
    by_cases hk : k = k1
    · subst hk
      have hnone : List.dlookup k rest = none := List.dlookup_eq_none.2 hnot
      simp [hnone, List.dlookup_cons_eq]
    · have hne : k1 ≠ k := fun e => hk e.symm
      rw [List.dlookup_cons_ne rest ⟨k1, v1⟩ hk]
      cases List.dlookup k rest with
      | some v => rfl
      | none => simp [AList.lookup_insert_ne hk]

theorem Merge_Environment (tc other : TaskConfig) (k : String) :
    envLookup (tc.Merge other).Environment k =
      (match envLookup other.Environment k with
       | some v => some v
       | none => envLookup tc.Environment k) := by
  cases ho : other.Environment with
  | none => simp [TaskConfig.Merge, ho, envLookup, apply_ite TaskConfig.Environment]
  | some otherEnv =>
    have hm := fun result => lookup_mergeEnv k otherEnv.entries otherEnv.nodupKeys result
    cases ht : tc.Environment with
    | none =>
      simp [TaskConfig.Merge, ho, ht, envLookup, apply_ite TaskConfig.Environment, hm]
      rfl
    | some tcEnv =>
      simp [TaskConfig.Merge, ho, ht, envLookup, apply_ite TaskConfig.Environment, hm]
      rfl

/-- C10. `Merge` gives `other` precedence field by field: each of the lists
`Paths`, `Events`, `ExecArgs`, `IgnorePatterns` is the one of `other` when
that is not empty and the one of `tc` otherwise; `ExecCommand` is the one of
`other` when not empty; `RetryInterval`, `MaxRetries`, `Timeout` are those of
`other` when positive; `RecursiveWatch` is true when it is in `other` and
the value of `tc` otherwise; and the merged environment maps every key
defined by `other` to the value of `other` and every other key to what `tc`
defines for it. -/
theorem Merge_other_takes_precedence (tc other : TaskConfig) :
    (tc.Merge other).Paths = (if other.Paths ≠ [] then other.Paths else tc.Paths)
    ∧ (tc.Merge other).Events = (if other.Events ≠ [] then other.Events else tc.Events)
    ∧ (tc.Merge other).ExecArgs = (if other.ExecArgs ≠ [] then other.ExecArgs else tc.ExecArgs)
    ∧ (tc.Merge other).IgnorePatterns
        = (if other.IgnorePatterns ≠ [] then other.IgnorePatterns else tc.IgnorePatterns)
    ∧ (tc.Merge other).ExecCommand
        = (if other.ExecCommand ≠ "" then other.ExecCommand else tc.ExecCommand)
    ∧ (tc.Merge other).RetryInterval
        = (if 0 < other.RetryInterval then other.RetryInterval else tc.RetryInterval)
    ∧ (tc.Merge other).MaxRetries
        = (if 0 < other.MaxRetries then other.MaxRetries else tc.MaxRetries)
    ∧ (tc.Merge other).Timeout = (if 0 < other.Timeout then other.Timeout else tc.Timeout)
    ∧ (tc.Merge other).RecursiveWatch
        = (if other.RecursiveWatch = true then true else tc.RecursiveWatch)
    ∧ (∀ k v, envLookup other.Environment k = some v →
        envLookup (tc.Merge other).Environment k = some v)
    ∧ (∀ k, envLookup other.Environment k = none →
        envLookup (tc.Merge other).Environment k = envLookup tc.Environment k) := by
  refine ⟨?_, ?_, ?_, ?_, ?_, ?_, ?_, ?_, ?_, ?_, ?_⟩
  · cases ho : other.Environment <;>
      simp [TaskConfig.Merge, ho, apply_ite TaskConfig.Paths, List.length_pos]
  · cases ho : other.Environment <;>
      simp [TaskConfig.Merge, ho, apply_ite TaskConfig.Events, List.length_pos]
  · cases ho : other.Environment <;>
      simp [TaskConfig.Merge, ho, apply_ite TaskConfig.ExecArgs, List.length_pos]
  · cases ho : other.Environment <;>
      simp [TaskConfig.Merge, ho, apply_ite TaskConfig.IgnorePatterns, List.length_pos]
  · cases ho : other.Environment <;>
      simp [TaskConfig.Merge, ho, apply_ite TaskConfig.ExecCommand]
  · cases ho : other.Environment <;>
      simp [TaskConfig.Merge, ho, apply_ite TaskConfig.RetryInterval]
  · cases ho : other.Environment <;>
      simp [TaskConfig.Merge, ho, apply_ite TaskConfig.MaxRetries]
  · cases ho : other.Environment <;>
      simp [TaskConfig.Merge, ho, apply_ite TaskConfig.Timeout]
  · cases ho : other.Environment <;>
      simp [TaskConfig.Merge, ho, apply_ite TaskConfig.RecursiveWatch]
  · intro k v hk
    rw [Merge_Environment, hk]
  · intro k hk
    rw [Merge_Environment, hk]

/-! ### The kind string of an operation mask -/

theorem and_two_pow_eq_iff (op k : Nat) : op &&& 2 ^ k = 2 ^ k ↔ op.testBit k = true := by
  constructor
  · intro h
    have h2 : (op &&& 2 ^ k).testBit k = (2 ^ k).testBit k := by rw [h]
    rw [Nat.testBit_and, Nat.testBit_two_pow_self] at h2
    simpa using h2
  · intro h
    apply Nat.eq_of_testBit_eq
    intro i
    rw [Nat.testBit_and, Nat.testBit_two_pow]
    by_cases hi : k = i
    · subst hi
      simp [h]
    · simp [hi]

theorem and_Create_iff (op : Nat) :
    op &&& fsnotify.Create = fsnotify.Create ↔ op.testBit 0 = true :=
  and_two_pow_eq_iff op 0

theorem and_Write_iff (op : Nat) :
    op &&& fsnotify.Write = fsnotify.Write ↔ op.testBit 1 = true :=
  and_two_pow_eq_iff op 1

theorem and_Remove_iff (op : Nat) :
    op &&& fsnotify.Remove = fsnotify.Remove ↔ op.testBit 2 = true :=
  and_two_pow_eq_iff op 2

theorem and_Rename_iff (op : Nat) :
    op &&& fsnotify.Rename = fsnotify.Rename ↔ op.testBit 3 = true :=
  and_two_pow_eq_iff op 3

theorem and_Chmod_iff (op : Nat) :
    op &&& fsnotify.Chmod = fsnotify.Chmod ↔ op.testBit 4 = true :=
  and_two_pow_eq_iff op 4

/-- The switch of `eventToString`, read on the bits of the mask: bit 0 is
`Create`, bit 1 `Write`, bit 2 `Remove`, bit 3 `Rename`, bit 4 `Chmod`. -/
theorem eventToString_eq (event : fsnotify.Event) :
    eventToString event =
      if event.Op.testBit 0 = true then "create"
      else if event.Op.testBit 1 = true then "modify"
      else if event.Op.testBit 2 = true then "remove"
      else if event.Op.testBit 3 = true then "rename"
      else if event.Op.testBit 4 = true then "chmod"
      else "unknown" := by
  unfold eventToString
  simp only [and_Create_iff, and_Write_iff, and_Remove_iff, and_Rename_iff, and_Chmod_iff]

/-- C11. For every operation mask, `eventToString` returns one of create,
modify, remove, rename, chmod, unknown. It returns `unknown` exactly when
none of the bits `Create`, `Write`, `Remove`, `Rename`, `Chmod` (bits 0 to 4)
is set, and otherwise the kind of the first set bit in the order `Create`,
`Write`, `Remove`, `Rename`, `Chmod`. So an event carrying `Write|Chmod` is
classified `modify`, and `shouldHandle` rejects it when the configured
events list is `chmod` alone. -/
theorem eventToString_first_set_bit (event : fsnotify.Event) :
    eventToString event ∈ ["create", "modify", "remove", "rename", "chmod", "unknown"]
    ∧ (eventToString event = "unknown" ↔
        (event.Op.testBit 0 = false ∧ event.Op.testBit 1 = false ∧ event.Op.testBit 2 = false ∧
          event.Op.testBit 3 = false ∧ event.Op.testBit 4 = false))
    ∧ (eventToString event = "create" ↔ event.Op.testBit 0 = true)
    ∧ (eventToString event = "modify" ↔
        (event.Op.testBit 0 = false ∧ event.Op.testBit 1 = true))
    ∧ (eventToString event = "remove" ↔
        (event.Op.testBit 0 = false ∧ event.Op.testBit 1 = false ∧ event.Op.testBit 2 = true))
    ∧ (eventToString event = "rename" ↔
        (event.Op.testBit 0 = false ∧ event.Op.testBit 1 = false ∧ event.Op.testBit 2 = false ∧
          event.Op.testBit 3 = true))
    ∧ (eventToString event = "chmod" ↔
        (event.Op.testBit 0 = false ∧ event.Op.testBit 1 = false ∧ event.Op.testBit 2 = false ∧
          event.Op.testBit 3 = false ∧ event.Op.testBit 4 = true))
    ∧ (∀ name : String, eventToString ⟨name, fsnotify.Write ||| fsnotify.Chmod⟩ = "modify")
    ∧ (∀ (globMatch : GlobMatch) (fw : FileWatcher) (name : String), fw.events = ["chmod"] →
        shouldHandle globMatch fw ⟨name, fsnotify.Write ||| fsnotify.Chmod⟩ = false) := by
  have hmod : ∀ name : String,
      eventToString ⟨name, fsnotify.Write ||| fsnotify.Chmod⟩ = "modify" := by
    intro name
    have hclosed : eventToString ⟨"", fsnotify.Write ||| fsnotify.Chmod⟩ = "modify" := by decide
    exact hclosed
  rw [eventToString_eq]
  refine ⟨?_, ?_, ?_, ?_, ?_, ?_, ?_, hmod, ?_⟩
  · split_ifs <;> simp
  · cases event.Op.testBit 0 <;> cases event.Op.testBit 1 <;> cases event.Op.testBit 2 <;>
      cases event.Op.testBit 3 <;> cases event.Op.testBit 4 <;> simp
  · cases event.Op.testBit 0 <;> cases event.Op.testBit 1 <;> cases event.Op.testBit 2 <;>
      cases event.Op.testBit 3 <;> cases event.Op.testBit 4 <;> simp
  · cases event.Op.testBit 0 <;> cases event.Op.testBit 1 <;> cases event.Op.testBit 2 <;>
      cases event.Op.testBit 3 <;> cases event.Op.testBit 4 <;> simp
  · cases event.Op.testBit 0 <;> cases event.Op.testBit 1 <;> cases event.Op.testBit 2 <;>
      cases event.Op.testBit 3 <;> cases event.Op.testBit 4 <;> simp
  · cases event.Op.testBit 0 <;> cases event.Op.testBit 1 <;> cases event.Op.testBit 2 <;>
      cases event.Op.testBit 3 <;> cases event.Op.testBit 4 <;> simp
  · cases event.Op.testBit 0 <;> cases event.Op.testBit 1 <;> cases event.Op.testBit 2 <;>
      cases event.Op.testBit 3 <;> cases event.Op.testBit 4 <;> simp
  · intro globMatch fw name hev
    unfold shouldHandle
    rw [hev, hmod name]
    rfl

end FileWatcherDriver
